import Mathlib

/-!
Verification of the ProgressiveDraw whiteboard object-graph engine.

This file gives a shallow embedding of the engine's core: the
`id -> CanvasObject` map together with the mutation operations of the
object slice (`addObject`, `updateObject`, `updateObjects`, `deleteObjects`,
`groupObjects`, `moveObjects`), the history slice (`undo`, `redo`,
`saveHistory`) and the frame slice (`setFrame`, `nextFrame`, `prevFrame`),
plus the geometry utilities (`calculateGroupBounds`, `getRecursiveChildrenIds`,
`getUpdatedConnections`).

The object map `Record<string, CanvasObject>` is embedded as an association
list with JavaScript object-key semantics: updating an existing key keeps its
position, adding a new key appends, and iteration follows list order.
JavaScript numbers are embedded as rationals; all arithmetic reached by the
engine is exact on the rationals.
-/

namespace PD

/-! ## Kernel-computable rational arithmetic

The Batteries implementations of `Rat.add`, `Rat.mul`, `Rat.sub` and
`Rat.inv` are irreducible, so closed engine states could not be evaluated by
`decide`.  The model therefore uses the following wrappers, built on
`Rat.divInt` (which does reduce), and the bridge lemmas below prove them
equal to the standard operations so that symbolic proofs can use Mathlib. -/

def rAdd (a b : ℚ) : ℚ :=
  Rat.divInt (a.num * (b.den : Int) + b.num * (a.den : Int)) ((a.den : Int) * (b.den : Int))

def rNeg (a : ℚ) : ℚ := Rat.divInt (-a.num) (a.den : Int)

def rSub (a b : ℚ) : ℚ := rAdd a (rNeg b)

def rMul (a b : ℚ) : ℚ := Rat.divInt (a.num * b.num) ((a.den : Int) * (b.den : Int))

def rDiv (a b : ℚ) : ℚ := Rat.divInt (a.num * (b.den : Int)) ((a.den : Int) * b.num)

/-! ## Data model

Direct translation of `CanvasObject` and its components from `types.ts`.
Optional fields are `Option`s; a `Partial<CanvasObject>` is embedded as
`ObjectUpdate`, where an optional field is `Option (Option _)`: the outer
layer records whether the key is present in the partial update, the inner
layer is the field's own optionality (a key that is present but set to
`undefined` still overrides on spread, yet fails a `!== undefined` test). -/

structure Point where
  x : ℚ
  y : ℚ
deriving DecidableEq

inductive COT where
  | rectangle
  | diamond
  | ellipse
  | arrow
  | line
  | text
  | group
deriving DecidableEq

inductive AnchorId where
  | n
  | s
  | e
  | w
deriving DecidableEq

structure Connection where
  objectId : String
  anchorId : AnchorId
deriving DecidableEq

structure Geometry where
  x : ℚ
  y : ℚ
  width : Option ℚ
  height : Option ℚ
  points : Option (List Point)
deriving DecidableEq

structure Style where
  stroke : Option String
  fill : Option String
  fontSize : Option ℚ
deriving DecidableEq

structure CanvasObject where
  id : String
  type : COT
  parentId : Option String
  children : Option (List String)
  geometry : Geometry
  style : Style
  text : Option String
  appearFrame : Int
  disappearFrame : Option Int
  startConnection : Option Connection
  endConnection : Option Connection
deriving DecidableEq

structure ObjectUpdate where
  id : Option String
  type : Option COT
  parentId : Option (Option String)
  children : Option (Option (List String))
  geometry : Option Geometry
  style : Option Style
  text : Option (Option String)
  appearFrame : Option Int
  disappearFrame : Option (Option Int)
  startConnection : Option (Option Connection)
  endConnection : Option (Option Connection)
deriving DecidableEq

/-- Spread merge `{ ...obj, ...updates }` of a partial update into an object. -/
def applyUpdate (obj : CanvasObject) (u : ObjectUpdate) : CanvasObject where
  id := u.id.getD obj.id
  type := u.type.getD obj.type
  parentId := u.parentId.getD obj.parentId
  children := u.children.getD obj.children
  geometry := u.geometry.getD obj.geometry
  style := u.style.getD obj.style
  text := u.text.getD obj.text
  appearFrame := u.appearFrame.getD obj.appearFrame
  disappearFrame := u.disappearFrame.getD obj.disappearFrame
  startConnection := u.startConnection.getD obj.startConnection
  endConnection := u.endConnection.getD obj.endConnection

/-- Test `updates.field !== undefined` on a partial-update field: true exactly
when the key is present with a defined value. -/
def jsDefined {α : Type} (x : Option (Option α)) : Bool :=
  match x with
  | some (some _) => true
  | _ => false

/-- The partial update with no keys present. -/
def emptyUpdate : ObjectUpdate where
  id := none
  type := none
  parentId := none
  children := none
  geometry := none
  style := none
  text := none
  appearFrame := none
  disappearFrame := none
  startConnection := none
  endConnection := none

/-! ## The object map

`Record<string, CanvasObject>` with JavaScript key semantics. -/

abbrev ObjMap := List (String × CanvasObject)

def lookupObj : ObjMap → String → Option CanvasObject
  | [], _ => none
  | (k, v) :: t, key => if k = key then some v else lookupObj t key

/-- Record update `{ ...m, [key]: v }` / assignment `m[key] = v`: an existing
key keeps its position, a new key is appended. -/
def insertObj : ObjMap → String → CanvasObject → ObjMap
  | [], key, v => [(key, v)]
  | (k, w) :: t, key, v => if k = key then (k, v) :: t else (k, w) :: insertObj t key v

/-- Property removal `delete m[key]`. -/
def eraseObj : ObjMap → String → ObjMap
  | [], _ => []
  | (k, v) :: t, key => if k = key then eraseObj t key else (k, v) :: eraseObj t key

/-- Iteration order of `Object.keys`. -/
def objKeys (m : ObjMap) : List String :=
  m.map (fun kv => kv.1)

/-- Merge `Object.assign(m, entries)`: later entries override earlier ones. -/
def assignEntries (m : ObjMap) (l : List (String × CanvasObject)) : ObjMap :=
  l.foldl (fun acc kv => insertObj acc kv.1 kv.2) m

/-! ## The whiteboard state

The slices of the zustand store that the embedded operations read or write:
the object map, the history stacks, the UI selection fields touched by
`deleteObjects` and `groupObjects`, and the frame counter. -/

structure WhiteboardState where
  objects : ObjMap
  past : List ObjMap
  future : List ObjMap
  selectedObjectIds : List String
  editingObjectId : Option String
  currentFrame : Int
deriving DecidableEq

/-! ## Geometry utilities (src/utils/whiteboardUtils.ts) -/

/-- Numeric `a || b`: JavaScript replaces `0`, `undefined` (and `NaN`) by the
fallback. -/
def jsOrNum (v : Option ℚ) (dflt : ℚ) : ℚ :=
  match v with
  | none => dflt
  | some x => if x = 0 then dflt else x

/-- Anchor position lookup from `getUpdatedConnections`; destructuring defaults
`width = 0, height = 0` are `Option.getD 0`.  The source's `default` switch
branch is unreachable: `anchorId` ranges over the four cardinal directions. -/
def getAnchorPos (obj : CanvasObject) (anchorId : AnchorId) : Point :=
  let x := obj.geometry.x
  let y := obj.geometry.y
  let width := obj.geometry.width.getD 0
  let height := obj.geometry.height.getD 0
  match anchorId with
  | AnchorId.n => { x := rAdd x (rDiv width 2), y := y }
  | AnchorId.s => { x := rAdd x (rDiv width 2), y := rAdd y height }
  | AnchorId.e => { x := rAdd x width, y := rAdd y (rDiv height 2) }
  | AnchorId.w => { x := x, y := rAdd y (rDiv height 2) }

/-- Accumulator of `calculateGroupBounds`: `none` is the untouched
`(Infinity, Infinity, -Infinity, -Infinity)` start, `some (minX, minY, maxX, maxY)`
the state after at least one finite min/max contribution. -/
def accPoint (acc : Option (ℚ × ℚ × ℚ × ℚ)) (p : Point) : Option (ℚ × ℚ × ℚ × ℚ) :=
  match acc with
  | none => some (p.x, p.y, p.x, p.y)
  | some (a, b, c, d) => some (min a p.x, min b p.y, max c p.x, max d p.y)

def accRect (acc : Option (ℚ × ℚ × ℚ × ℚ)) (x y w h : ℚ) : Option (ℚ × ℚ × ℚ × ℚ) :=
  match acc with
  | none => some (x, y, rAdd x w, rAdd y h)
  | some (a, b, c, d) => some (min a x, min b y, max c (rAdd x w), max d (rAdd y h))

/-- Common shape of `accPoint` and `accRect`: merge one child bounding box
(`minX, minY, maxX, maxY`) into the running `Infinity`-seeded accumulator. -/
def mergeBox (acc : Option (ℚ × ℚ × ℚ × ℚ)) (bx : ℚ × ℚ × ℚ × ℚ) :
    Option (ℚ × ℚ × ℚ × ℚ) :=
  match acc, bx with
  | none, (x1, y1, x2, y2) => some (x1, y1, x2, y2)
  | some (a, b, c, d), (x1, y1, x2, y2) => some (min a x1, min b y1, max c x2, max d y2)

/-- One `childrenIds.forEach` step of `calculateGroupBounds`; the Bool is the
`hasChildren` flag. -/
def boundsStep (m : ObjMap) (st : Option (ℚ × ℚ × ℚ × ℚ) × Bool) (childId : String) :
    Option (ℚ × ℚ × ℚ × ℚ) × Bool :=
  match lookupObj m childId with
  | none => st
  | some child =>
    match child.geometry.points with
    | some ps => (ps.foldl accPoint st.1, true)
    | none =>
      (accRect st.1 child.geometry.x child.geometry.y
        (child.geometry.width.getD 0) (child.geometry.height.getD 0), true)

/-- Bounding box of a group's children, with the fixed 10-unit padding.
Returns `none` when no child id resolves (`hasChildren` stays false).  The
degenerate source case in which every resolving child is a connector with an
empty `points` array would produce a box with infinite coordinates; it is
likewise mapped to `none` (no engine state built by the operations below
reaches it). -/
def calculateGroupBounds (m : ObjMap) (childrenIds : List String) : Option Geometry :=
  match childrenIds.foldl (boundsStep m) (none, false) with
  | (some (a, b, c, d), true) =>
    some { x := rSub a 10, y := rSub b 10,
           width := some (rAdd (rSub c a) 20), height := some (rAdd (rSub d b) 20),
           points := none }
  | _ => none

/-- Weight of the ids not yet collected: an upper bound on the work the
recursive child collection can still push. -/
def childCount (kv : String × CanvasObject) : Nat :=
  ((kv.2).children.getD []).length

def pendingWeight (m : ObjMap) (collected : List String) : Nat :=
  ((m.filter (fun kv => !(collected.contains kv.1))).map childCount).sum

/-- Worklist form of `getRecursiveChildrenIds`: visit an id, record it, then
descend into its children before the remaining worklist — exactly the
traversal order of the source recursion with its shared `collected` set.  The
fuel argument makes the definition structural; `getRecursiveChildrenIds`
supplies enough fuel that the zero case is never reached. -/
def collectRec (m : ObjMap) : Nat → List String → List String → List String
  | 0, _, collected => collected
  | _ + 1, [], collected => collected
  | fuel + 1, id :: rest, collected =>
    if collected.contains id then collectRec m fuel rest collected
    else
      match (lookupObj m id).bind (fun o => o.children) with
      | some cs => collectRec m fuel (cs ++ rest) (collected ++ [id])
      | none => collectRec m fuel rest (collected ++ [id])

def getRecursiveChildrenIds (m : ObjMap) (targetIds : List String) : List String :=
  collectRec m (targetIds.length + pendingWeight m [] + 1) targetIds []

/-- Order-preserving deduplication, as `Array.from(new Set(list))`: the first
occurrence of each element wins. -/
def dedupFirst (l : List String) : List String :=
  l.foldl (fun acc x => if acc.contains x then acc else acc ++ [x]) []

/-- Result of `Math.min(...l)`; callers guard against the empty spread (whose
JavaScript value would be Infinity). -/
def jsMinList (l : List Int) : Int :=
  match l with
  | [] => 0
  | x :: xs => xs.foldl min x

/-- Index assignment `arr[i] = v` on a copied points array.  For an index in
range it is `List.set`; index `length` (only reachable as `0` on an empty
array) appends; a negative index (only `-1` on an empty array) creates a
non-index property and leaves the array unchanged. -/
def jsSetPoint (l : List Point) (i : Int) (v : Point) : List Point :=
  if 0 ≤ i ∧ i < (l.length : Int) then l.set i.toNat v
  else if i = (l.length : Int) then l ++ [v]
  else l

/-- Body of the `Object.values(objects).forEach` loop of
`getUpdatedConnections`: returns the re-anchored connector when `other` is an
arrow or line with at least one endpoint bound to the modified object. -/
def connectorPointsUpdate (modifiedObj other : CanvasObject) : Option CanvasObject :=
  if other.type = COT.arrow ∨ other.type = COT.line then
    let ps0 := other.geometry.points.getD []
    let st1 :=
      match other.startConnection with
      | some c =>
        if c.objectId = modifiedObj.id then
          (jsSetPoint ps0 0 (getAnchorPos modifiedObj c.anchorId), true)
        else (ps0, false)
      | none => (ps0, false)
    let st2 :=
      match other.endConnection with
      | some c =>
        if c.objectId = modifiedObj.id then
          (jsSetPoint st1.1 ((st1.1.length : Int) - 1) (getAnchorPos modifiedObj c.anchorId), true)
        else st1
      | none => st1
    if st2.2 then
      some { other with geometry := { other.geometry with points := some st2.1 } }
    else none
  else none

/-- Connector maintenance `getUpdatedConnections`: for an area-shape
`modifiedObj`, the record of re-anchored connectors, keyed by `other.id`, in
map iteration order. -/
def getUpdatedConnections (modifiedObj : CanvasObject) (objects : ObjMap) :
    List (String × CanvasObject) :=
  if modifiedObj.type = COT.rectangle ∨ modifiedObj.type = COT.diamond ∨
      modifiedObj.type = COT.ellipse ∨ modifiedObj.type = COT.group then
    objects.filterMap (fun kv =>
      (connectorPointsUpdate modifiedObj kv.2).map (fun o => (o.id, o)))
  else []

/-! ## Object slice operations -/

/-- Helper of the object slice: remove `childId` from its old parent's
`children` (unless the old parent is the new parent), then either recompute
the old parent's bounds or delete it when it was emptied. -/
def removeFromOldParent (objects : ObjMap) (childId : String) (newParentId : Option String) :
    ObjMap :=
  match lookupObj objects childId with
  | none => objects
  | some obj =>
    match obj.parentId with
    | none => objects
    | some pid =>
      if lookupObj objects pid = none then objects
      else if some pid = newParentId then objects
      else
        match lookupObj objects pid with
        | none => objects
        | some oldParent =>
          match oldParent.children with
          | none => objects
          | some cs =>
            let cs' := cs.filter (fun cid => cid ≠ childId)
            let objects' := insertObj objects pid { oldParent with children := some cs' }
            if 0 < cs'.length then
              match calculateGroupBounds objects' cs' with
              | some b =>
                insertObj objects' pid { oldParent with children := some cs', geometry := b }
              | none => objects'
            else eraseObj objects' pid

/-- Body of `finalObjects[id] = { ...finalObjects[id], parentId: p }`.  When
the entry is missing the source would spread `undefined` and produce a record
with only a `parentId` key; that needs a self-referential parent cycle and is
unreachable from engine-built states, so the model leaves the map unchanged
there. -/
def setParentIdEntry (m : ObjMap) (id : String) (p : Option String) : ObjMap :=
  match lookupObj m id with
  | some v => insertObj m id { v with parentId := p }
  | none => m

/-- Object creation `addObject`.  The source draws the fresh id from
`nanoid()`; the embedding takes it as the `id` argument.  When the new object
is a connector whose two connection targets share a parent group, it joins
that group and the group's bounds are recomputed.  Always records history. -/
def addObject (s : WhiteboardState) (id : String) (obj : CanvasObject) : WhiteboardState :=
  let newObject := { obj with id := id }
  let m0 := insertObj s.objects id newObject
  let result :=
    if newObject.type = COT.arrow ∨ newObject.type = COT.line then
      match newObject.startConnection, newObject.endConnection with
      | some sc, some ec =>
        let startParent := (lookupObj m0 sc.objectId).bind (fun o => o.parentId)
        let endParent := (lookupObj m0 ec.objectId).bind (fun o => o.parentId)
        match startParent with
        | some sp =>
          if some sp = endParent then
            match lookupObj m0 sp with
            | some parent =>
              let newChildren := dedupFirst (parent.children.getD [] ++ [id])
              let m1 := insertObj m0 sp { parent with children := some newChildren }
              let m2 := insertObj m1 id { newObject with parentId := some sp }
              match calculateGroupBounds m2 newChildren with
              | some b =>
                insertObj m2 sp { parent with children := some newChildren, geometry := b }
              | none => m2
            | none => m0
          else m0
        | none => m0
      | _, _ => m0
    else m0
  { s with objects := result, past := s.past ++ [s.objects], future := [] }

/-- Proportional rescale of one child of a resized group. -/
def scaleChild (oldGeom newGeom : Geometry) (scaleX scaleY : ℚ) (child : CanvasObject) :
    CanvasObject :=
  match child.geometry.points with
  | some ps =>
    { child with geometry :=
        { child.geometry with points := some (ps.map (fun p =>
            { x := rAdd newGeom.x (rMul (rSub p.x oldGeom.x) scaleX),
              y := rAdd newGeom.y (rMul (rSub p.y oldGeom.y) scaleY) })) } }
  | none =>
    let oldChildW := child.geometry.width.getD 0
    let oldChildH := child.geometry.height.getD 0
    let relX := rSub child.geometry.x oldGeom.x
    let relY := rSub child.geometry.y oldGeom.y
    { child with geometry :=
        { child.geometry with
          x := rAdd newGeom.x (rMul relX scaleX),
          y := rAdd newGeom.y (rMul relY scaleY),
          width := some (rMul oldChildW scaleX),
          height := some (rMul oldChildH scaleY) } }

/-- The group-resize pass of `updateObject`: rescale each listed child in
place, reading from the evolving map. -/
def scaleChildrenPass (oldGeom newGeom : Geometry) (scaleX scaleY : ℚ)
    (children : List String) (m : ObjMap) : ObjMap :=
  children.foldl (fun acc childId =>
    match lookupObj acc childId with
    | none => acc
    | some child => insertObj acc childId (scaleChild oldGeom newGeom scaleX scaleY child)) m

/-- Group-membership maintenance for a connector inside `updateObject`:
returns the map after the reparent dance together with the final
`currentObj`. -/
def connectorMembershipPass (m3 : ObjMap) (id : String) (currentObj : CanvasObject) :
    ObjMap × CanvasObject :=
  let targetParentId : Option String :=
    match currentObj.startConnection, currentObj.endConnection with
    | some sc, some ec =>
      match (lookupObj m3 sc.objectId).bind (fun o => o.parentId) with
      | some sp =>
        if some sp = (lookupObj m3 ec.objectId).bind (fun o => o.parentId) then some sp
        else none
      | none => none
    | _, _ => none
  if currentObj.parentId = targetParentId then (m3, currentObj)
  else
    let m4a :=
      match currentObj.parentId with
      | some _ => removeFromOldParent m3 id targetParentId
      | none => m3
    let m4 :=
      match targetParentId with
      | some tpid =>
        match lookupObj m4a tpid with
        | some newParent =>
          let newChildren := dedupFirst (newParent.children.getD [] ++ [id])
          let m4b := insertObj m4a tpid { newParent with children := some newChildren }
          let m4c := setParentIdEntry m4b id (some tpid)
          let cs := ((lookupObj m4c tpid).bind (fun o => o.children)).getD []
          match calculateGroupBounds m4c cs, lookupObj m4c tpid with
          | some b, some tp => insertObj m4c tpid { tp with geometry := b }
          | _, _ => m4c
        | none => setParentIdEntry m4a id none
      | none => setParentIdEntry m4a id none
  (m4, (lookupObj m4 id).getD currentObj)

/-- Final step of `updateObject`: when the (possibly reparented) target still
has a parent with a `children` list, recompute that parent's bounds. -/
def parentBoundsPass (m : ObjMap) (cur : CanvasObject) : ObjMap :=
  match cur.parentId with
  | none => m
  | some pid =>
    match lookupObj m pid with
    | none => m
    | some parent =>
      match parent.children with
      | none => m
      | some cs =>
        match calculateGroupBounds m cs with
        | some b => insertObj m parent.id { parent with geometry := b }
        | none => m

/-- The group-resize step of `updateObject`: when the merged object is a
group, the update touched `geometry`, and the old object had a children list,
every child is rescaled proportionally (`|| 0` numerators, `|| 1`
denominators). -/
def updateScaled (obj newObj : CanvasObject) (u : ObjectUpdate) (m1 : ObjMap) : ObjMap :=
  if newObj.type = COT.group ∧ u.geometry.isSome ∧ obj.children.isSome then
    scaleChildrenPass obj.geometry newObj.geometry
      (rDiv (jsOrNum newObj.geometry.width 0) (jsOrNum obj.geometry.width 1))
      (rDiv (jsOrNum newObj.geometry.height 0) (jsOrNum obj.geometry.height 1))
      (obj.children.getD []) m1
  else m1

/-- The membership step of `updateObject`: only a connector whose update
touched `startConnection` or `endConnection` (with a defined value) runs the
reparent dance. -/
def updateMembership (u : ObjectUpdate) (m3 : ObjMap) (id : String)
    (currentObj : CanvasObject) : ObjMap × CanvasObject :=
  if (currentObj.type = COT.arrow ∨ currentObj.type = COT.line) ∧
      (jsDefined u.startConnection ∨ jsDefined u.endConnection) then
    connectorMembershipPass m3 id currentObj
  else (m3, currentObj)

/-- The `updateObject` mutation: merge the partial update, rescale children of
a resized group, re-anchor bound connectors, maintain connector group
membership, recompute the parent's bounds, and optionally record history.
Silently a no-op when `id` is absent. -/
def updateObject (s : WhiteboardState) (id : String) (u : ObjectUpdate)
    (saveHistory : Bool) : WhiteboardState :=
  match lookupObj s.objects id with
  | none => s
  | some obj =>
    let newObj := applyUpdate obj u
    let m1 := insertObj s.objects id newObj
    let m2 := updateScaled obj newObj u m1
    let m3 := assignEntries m2 (getUpdatedConnections newObj m2)
    let currentObj := (lookupObj m3 id).getD newObj
    let stepped := updateMembership u m3 id currentObj
    let m6 := parentBoundsPass stepped.1 stepped.2
    { s with
      objects := m6
      past := if saveHistory then s.past ++ [s.objects] else s.past
      future := if saveHistory then [] else s.future }

/-- The `updateObjects` bulk mutation: apply one partial update to the
recursive children closure of `ids`, with no connector or group
recomputation. -/
def updateObjects (s : WhiteboardState) (ids : List String) (u : ObjectUpdate)
    (saveHistory : Bool) : WhiteboardState :=
  let allIds := getRecursiveChildrenIds s.objects ids
  let m := allIds.foldl (fun acc id =>
    match lookupObj acc id with
    | some v => insertObj acc id (applyUpdate v u)
    | none => acc) s.objects
  { s with
    objects := m
    past := if saveHistory then s.past ++ [s.objects] else s.past
    future := if saveHistory then [] else s.future }

def groupStroke : String := "rgba(0,0,0,0)"

def groupFill : String := "transparent"

/-- Reparent one id to `newParentId` inside `groupObjects`: first the old
parent cleanup, then the `parentId` spread.  When the entry vanished the
source spread of `undefined` would build a malformed record; unreachable
without pathological parent cycles, and the model leaves the map unchanged
there. -/
def reparentStep (newParentId : String) (acc : ObjMap) (id : String) : ObjMap :=
  let acc1 := removeFromOldParent acc id (some newParentId)
  match lookupObj acc1 id with
  | some v => insertObj acc1 id { v with parentId := some newParentId }
  | none => acc1

/-- Group creation `groupObjects(ids)`.  The source draws the fresh group id
from `nanoid()`; the embedding takes it as `gid`.  Fewer than two ids is a
no-op; selecting exactly one existing group merges the rest into it; otherwise
a fresh group is created with the padded union box and the minimum
`appearFrame` of its members. -/
def groupObjects (s : WhiteboardState) (gid : String) (ids : List String) : WhiteboardState :=
  if ids.length < 2 then s
  else
    let objectsToGroup := ids.filterMap (fun id => lookupObj s.objects id)
    if objectsToGroup.length = 0 then s
    else
      let existingGroups := objectsToGroup.filter (fun o => o.type = COT.group)
      match existingGroups with
      | [existingGroup] =>
        let otherIds := ids.filter (fun id => id ≠ existingGroup.id)
        let updatedChildren := dedupFirst (existingGroup.children.getD [] ++ otherIds)
        let m1 := otherIds.foldl (reparentStep existingGroup.id) s.objects
        let newBounds := calculateGroupBounds m1 updatedChildren
        let m2 := insertObj m1 existingGroup.id
          { existingGroup with
            children := some updatedChildren
            geometry := newBounds.getD existingGroup.geometry }
        { s with
          objects := m2
          past := s.past ++ [s.objects]
          future := []
          selectedObjectIds := [existingGroup.id] }
      | _ =>
        match calculateGroupBounds s.objects ids with
        | none => s
        | some b =>
          let group : CanvasObject :=
            { id := gid
              type := COT.group
              parentId := none
              children := some ids
              geometry := b
              style := { stroke := some groupStroke, fill := some groupFill, fontSize := none }
              text := none
              appearFrame := jsMinList (objectsToGroup.map (fun o => o.appearFrame))
              disappearFrame := none
              startConnection := none
              endConnection := none }
          let m1 := insertObj s.objects gid group
          let m2 := ids.foldl (reparentStep gid) m1
          { s with
            objects := m2
            past := s.past ++ [s.objects]
            future := []
            selectedObjectIds := [gid] }

/-- One arrow check of the post-deletion cleanup pass: when either endpoint of
the arrow no longer resolves to an object parented by the group `id`, the
arrow's `parentId` is cleared and it is dropped from the surviving-children
list. -/
def evictStep (id : String) (st : ObjMap × List String) (aid : String) :
    ObjMap × List String :=
  match lookupObj st.1 aid with
  | none => st
  | some arrow =>
    let startParent :=
      match arrow.startConnection with
      | some c => (lookupObj st.1 c.objectId).bind (fun o => o.parentId)
      | none => none
    let endParent :=
      match arrow.endConnection with
      | some c => (lookupObj st.1 c.objectId).bind (fun o => o.parentId)
      | none => none
    if startParent ≠ some id ∨ endParent ≠ some id then
      (insertObj st.1 aid { arrow with parentId := none },
       st.2.filter (fun cid => cid ≠ aid))
    else st

/-- Body of the cleanup step for a group entry `obj` at key `id`: filter out
deleted children, evict connectors whose endpoints no longer both resolve
inside the group, then dissolve or rewrite the group. -/
def cleanupGroupRun (m : ObjMap) (id : String) (obj : CanvasObject) : ObjMap :=
  let cs0 := (obj.children.getD []).filter (fun cid => (lookupObj m cid).isSome)
  let arrowsInGroup := cs0.filter (fun cid =>
    match lookupObj m cid with
    | some o => o.type = COT.arrow ∨ o.type = COT.line
    | none => false)
  let evicted := arrowsInGroup.foldl (evictStep id) (m, cs0)
  if evicted.2.length = 0 then eraseObj evicted.1 id
  else
    match calculateGroupBounds evicted.1 evicted.2 with
    | some b =>
      insertObj evicted.1 id { obj with children := some evicted.2, geometry := b }
    | none =>
      insertObj evicted.1 id { obj with children := some evicted.2, geometry := obj.geometry }

/-- One step of the post-deletion cleanup pass over `Object.keys`: only group
entries are processed.  The `none` arm is unreachable in the source loop as
written (a cleanup step only ever deletes the key it is processing). -/
def cleanupGroupStep (m : ObjMap) (id : String) : ObjMap :=
  match lookupObj m id with
  | none => m
  | some obj =>
    if obj.type = COT.group ∧ obj.children.isSome then cleanupGroupRun m id obj
    else m

/-- Cascade deletion `deleteObjects(ids)`: delete the recursive children
closure, then run the group cleanup pass over the remaining keys, prune the
selection and editing id, and record history. -/
def deleteObjects (s : WhiteboardState) (ids : List String) : WhiteboardState :=
  let idsToDelete := getRecursiveChildrenIds s.objects ids
  let m0 := idsToDelete.foldl eraseObj s.objects
  let m1 := (objKeys m0).foldl cleanupGroupStep m0
  { s with
    objects := m1
    past := s.past ++ [s.objects]
    future := []
    selectedObjectIds := s.selectedObjectIds.filter (fun oid => !(idsToDelete.contains oid))
    editingObjectId :=
      match s.editingObjectId with
      | some e => if idsToDelete.contains e then none else some e
      | none => none }

def deleteObject (s : WhiteboardState) (id : String) : WhiteboardState :=
  deleteObjects s [id]

/-- A connector translated by `moveObjects`: every point shifted and both
connection bindings cleared. -/
def movedConnector (dx dy : ℚ) (obj : CanvasObject) : CanvasObject :=
  { obj with
    geometry := { obj.geometry with points := some ((obj.geometry.points.getD []).map
      (fun p => { x := rAdd p.x dx, y := rAdd p.y dy })) }
    startConnection := none
    endConnection := none }

/-- An area shape translated by `moveObjects`: origin shifted. -/
def movedShape (dx dy : ℚ) (obj : CanvasObject) : CanvasObject :=
  { obj with geometry :=
      { obj.geometry with x := rAdd obj.geometry.x dx, y := rAdd obj.geometry.y dy } }

/-- First pass of `moveObjects`: translate one object of the moved closure;
a connector with a points array is translated pointwise and loses both
connection bindings. -/
def moveOnePass (dx dy : ℚ) (acc : ObjMap) (id : String) : ObjMap :=
  match lookupObj acc id with
  | none => acc
  | some obj =>
    if (obj.type = COT.arrow ∨ obj.type = COT.line) ∧ obj.geometry.points.isSome then
      insertObj acc id (movedConnector dx dy obj)
    else
      insertObj acc id (movedShape dx dy obj)

/-- Second pass of `moveObjects`: translate the bound endpoints of every
connector that was not itself moved but is connected to a moved object.  The
reads of `points[0]` and `points[points.length - 1]` would throw in the source
on an empty points array of a bound connector; that state is unreachable for
engine-built connectors (two or more points), and the model keeps the list
unchanged there. -/
def followOnePass (movedIds : List String) (dx dy : ℚ) (acc : ObjMap) (id : String) : ObjMap :=
  if movedIds.contains id then acc
  else
    match lookupObj acc id with
    | none => acc
    | some other =>
      if other.type = COT.arrow ∨ other.type = COT.line then
        let ps0 := other.geometry.points.getD []
        let st1 :=
          match other.startConnection with
          | some c =>
            if movedIds.contains c.objectId then
              match ps0.head? with
              | some p => (ps0.set 0 { x := rAdd p.x dx, y := rAdd p.y dy }, true)
              | none => (ps0, true)
            else (ps0, false)
          | none => (ps0, false)
        let st2 :=
          match other.endConnection with
          | some c =>
            if movedIds.contains c.objectId then
              match st1.1.getLast? with
              | some p => (st1.1.set (st1.1.length - 1) { x := rAdd p.x dx, y := rAdd p.y dy },
                           true)
              | none => st1
            else st1
          | none => st1
        if st2.2 then
          insertObj acc id { other with geometry := { other.geometry with points := some st2.1 } }
        else acc
      else acc

/-- Third pass of `moveObjects`: recompute the bounds of every group that is
the parent of a moved object. -/
def moveBoundsPass (acc : ObjMap) (pid : String) : ObjMap :=
  match lookupObj acc pid with
  | none => acc
  | some parent =>
    match parent.children with
    | none => acc
    | some cs =>
      match calculateGroupBounds acc cs with
      | some b => insertObj acc pid { parent with geometry := b }
      | none => acc

/-- The full first pass over the moved closure. -/
def moveStage1 (m : ObjMap) (movedIds : List String) (dx dy : ℚ) : ObjMap :=
  movedIds.foldl (moveOnePass dx dy) m

/-- The full second (connector-follow) pass over `Object.keys`. -/
def moveStage2 (m1 : ObjMap) (movedIds : List String) (dx dy : ℚ) : ObjMap :=
  (objKeys m1).foldl (followOnePass movedIds dx dy) m1

/-- Parent ids of the moved objects, in first-occurrence order
(`Set` insertion order). -/
def moveParents (m2 : ObjMap) (movedIds : List String) : List String :=
  dedupFirst (movedIds.foldl (fun acc id =>
    match (lookupObj m2 id).bind (fun o => o.parentId) with
    | some pid => acc ++ [pid]
    | none => acc) [])

/-- The full third (parent bounds) pass. -/
def moveStage3 (m2 : ObjMap) (movedIds : List String) : ObjMap :=
  (moveParents m2 movedIds).foldl moveBoundsPass m2

/-- Translation `moveObjects(ids, dx, dy)`.  The source builds the moved set
with an inline recursive collect over `state.objects` that is the identical
traversal to `getRecursiveChildrenIds`.  Connectors moved directly are
translated and stripped of their bindings; unmoved connectors bound to moved
objects have the bound endpoints translated; parents of moved objects get
their bounds recomputed. -/
def moveObjects (s : WhiteboardState) (ids : List String) (dx dy : ℚ)
    (saveHistory : Bool) : WhiteboardState :=
  let movedIds := getRecursiveChildrenIds s.objects ids
  let m1 := moveStage1 s.objects movedIds dx dy
  let m2 := moveStage2 m1 movedIds dx dy
  let m3 := moveStage3 m2 movedIds
  { s with
    objects := m3
    past := if saveHistory then s.past ++ [s.objects] else s.past
    future := if saveHistory then [] else s.future }

/-! ## History slice -/

def undo (s : WhiteboardState) : WhiteboardState :=
  match s.past.getLast? with
  | none => s
  | some previous =>
    { s with
      past := s.past.dropLast
      future := s.objects :: s.future
      objects := previous }

def redo (s : WhiteboardState) : WhiteboardState :=
  match s.future with
  | [] => s
  | next :: newFuture =>
    { s with
      past := s.past ++ [s.objects]
      future := newFuture
      objects := next }

def saveHistoryOp (s : WhiteboardState) : WhiteboardState :=
  { s with past := s.past ++ [s.objects], future := [] }

/-! ## Frame slice -/

def setFrame (s : WhiteboardState) (frame : Int) : WhiteboardState :=
  { s with currentFrame := max 0 frame }

def nextFrame (s : WhiteboardState) : WhiteboardState :=
  { s with currentFrame := s.currentFrame + 1 }

def prevFrame (s : WhiteboardState) : WhiteboardState :=
  { s with currentFrame := max 0 (s.currentFrame - 1) }

/-- The initial frame counter of `createFrameSlice`. -/
def initialFrame : Int := 0

/-- The three operations of the frame slice, as an operation alphabet for
reachability statements. -/
inductive FrameOp where
  | setTo (frame : Int)
  | next
  | prev

def applyFrameOp (s : WhiteboardState) (op : FrameOp) : WhiteboardState :=
  match op with
  | FrameOp.setTo f => setFrame s f
  | FrameOp.next => nextFrame s
  | FrameOp.prev => prevFrame s

/-! ## Helper notions for the claims -/

/-- A mutation records history when it pushes the pre-mutation map onto `past`
and clears `future` (the `snapshot()` discipline). -/
def RecordsHistory (f : WhiteboardState → WhiteboardState) : Prop :=
  ∀ s, (f s).past = s.past ++ [s.objects] ∧ (f s).future = []

/-- Apply a sequence of mutations in order. -/
def applySteps (steps : List (WhiteboardState → WhiteboardState))
    (s : WhiteboardState) : WhiteboardState :=
  steps.foldl (fun t f => f t) s

/-- Apply an operation `n` times. -/
def iterOp (f : WhiteboardState → WhiteboardState) : Nat → WhiteboardState → WhiteboardState
  | 0, s => s
  | n + 1, s => iterOp f n (f s)

/-- One parent/child step of the ownership graph: `b` is listed among the
children of the map entry `a`. -/
def ChildStep (m : ObjMap) (a b : String) : Prop :=
  ∃ v, lookupObj m a = some v ∧ b ∈ v.children.getD []

/-- Transitive descendant along `children` lists. -/
def DescendantOf (m : ObjMap) (a b : String) : Prop :=
  Relation.TransGen (ChildStep m) a b

/-- Every entry's `id` field agrees with its key. -/
def IdsMatch (m : ObjMap) : Prop :=
  ∀ kv ∈ m, (kv.2).id = kv.1

/-- Map well-formedness used by several claims: keys are unique and every
entry's `id` field agrees with its key. -/
def WFMap (m : ObjMap) : Prop :=
  (objKeys m).Nodup ∧ IdsMatch m

instance (m : ObjMap) : Decidable (IdsMatch m) :=
  inferInstanceAs (Decidable (∀ kv ∈ m, (kv.2).id = kv.1))

instance (m : ObjMap) : Decidable (WFMap m) :=
  inferInstanceAs (Decidable ((objKeys m).Nodup ∧ IdsMatch m))

/-- Skeleton equality: the fields of a canvas object that the group-resize
pass never changes, with point lists tracked up to length. -/
def SkelEq (v w : CanvasObject) : Prop :=
  w.id = v.id ∧ w.type = v.type ∧ w.parentId = v.parentId ∧ w.children = v.children ∧
  w.startConnection = v.startConnection ∧ w.endConnection = v.endConnection ∧
  ((v.geometry.points = none ∧ w.geometry.points = none) ∨
   (∃ ps qs, v.geometry.points = some ps ∧ w.geometry.points = some qs ∧
     qs.length = ps.length))

/-- Pointwise skeleton equality of optional entries. -/
def SkelOpt : Option CanvasObject → Option CanvasObject → Prop
  | none, none => True
  | some v, some w => SkelEq v w
  | _, _ => False

/-- Parent coherence: whenever an entry records a `parentId`, that parent is
present and lists the entry among its children. -/
def ParentCoherent (m : ObjMap) : Prop :=
  ∀ x X p, lookupObj m x = some X → X.parentId = some p →
    ∃ P, lookupObj m p = some P ∧ x ∈ P.children.getD []

/-- Executable parent coherence of one entry, for concrete instances. -/
def parentOk (m : ObjMap) (kv : String × CanvasObject) : Bool :=
  match (kv.2).parentId with
  | none => true
  | some p =>
    match lookupObj m p with
    | none => false
    | some P => (P.children.getD []).contains kv.1

/-- Invariant of the arrow-eviction fold of the cleanup pass, relative to the
step's input map `m`, the surviving-children seed `cs0` and the processed
arrow list `ag`: every entry is either untouched or an evicted arrow with its
`parentId` cleared; every seed child either survives on the list or was
evicted; the list only shrinks within `cs0`. -/
def EvictInv (m : ObjMap) (cs0 ag : List String) (st : ObjMap × List String) : Prop :=
  (∀ x, lookupObj st.1 x = lookupObj m x ∨
    ∃ a0, lookupObj m x = some a0 ∧
      lookupObj st.1 x = some { a0 with parentId := none }) ∧
  (∀ x ∈ cs0, x ∈ st.2 ∨ (x ∈ ag ∧
    ∃ a0, lookupObj m x = some a0 ∧
      lookupObj st.1 x = some { a0 with parentId := none })) ∧
  (∀ x ∈ st.2, x ∈ cs0)

/-! ## Concrete states used by witnesses and counterexamples -/

def emptyState : WhiteboardState :=
  { objects := []
    past := []
    future := []
    selectedObjectIds := []
    editingObjectId := none
    currentFrame := 0 }

def defaultStyle : Style :=
  { stroke := none, fill := none, fontSize := none }

def mkRect (id : String) (x y w h : ℚ) : CanvasObject :=
  { id := id
    type := COT.rectangle
    parentId := none
    children := none
    geometry := { x := x, y := y, width := some w, height := some h, points := none }
    style := defaultStyle
    text := none
    appearFrame := 0
    disappearFrame := none
    startConnection := none
    endConnection := none }

def mkArrow (id : String) (ps : List Point) (sc ec : Option Connection) : CanvasObject :=
  { id := id
    type := COT.arrow
    parentId := none
    children := none
    geometry := { x := 0, y := 0, width := none, height := none, points := some ps }
    style := defaultStyle
    text := none
    appearFrame := 0
    disappearFrame := none
    startConnection := sc
    endConnection := ec }

def mkGroup (id : String) (children : List String) (x y w h : ℚ) : CanvasObject :=
  { id := id
    type := COT.group
    parentId := none
    children := some children
    geometry := { x := x, y := y, width := some w, height := some h, points := none }
    style := defaultStyle
    text := none
    appearFrame := 0
    disappearFrame := none
    startConnection := none
    endConnection := none }

def missingId : String := "missing"

def r1Id : String := "r1"

def r2Id : String := "r2"

def arrowId : String := "a1"

def groupId : String := "g1"

/-- History-recording mutations used by the undo/redo witness. -/
def histStep1 : WhiteboardState → WhiteboardState :=
  fun t => addObject t r1Id (mkRect r1Id 0 0 5 5)

def histStep2 : WhiteboardState → WhiteboardState :=
  fun t => deleteObjects t [r1Id]

/-- Scenario C configuration: rectangles `r1` and `r2` and a connector bound
to both, all children of one group. -/
def c7Start : WhiteboardState :=
  { emptyState with objects := [
      (groupId, mkGroup groupId [r1Id, r2Id, arrowId] (-10) (-10) 80 80),
      (r1Id, { mkRect r1Id 0 0 10 10 with parentId := some groupId }),
      (r2Id, { mkRect r2Id 50 50 10 10 with parentId := some groupId }),
      (arrowId,
        { mkArrow arrowId [{ x := 10, y := 5 }, { x := 50, y := 55 }]
            (some { objectId := r1Id, anchorId := AnchorId.e })
            (some { objectId := r2Id, anchorId := AnchorId.w }) with
          parentId := some groupId })] }

/-- A group with one rectangle child, used to refute the unrestricted
group-bounds invariant. -/
def c2Start : WhiteboardState :=
  { emptyState with objects := [
      (groupId, mkGroup groupId [r1Id] (-10) (-10) 30 30),
      (r1Id, { mkRect r1Id 0 0 10 10 with parentId := some groupId })] }

/-- Geometry-only partial update moving a shape to (100, 100). -/
def c2UpdateGeometry : Geometry :=
  { x := 100, y := 100, width := some 10, height := some 10, points := none }

def c2Update : ObjectUpdate :=
  { emptyUpdate with geometry := some c2UpdateGeometry }

/-- Cascade-delete configuration: group `g1` with child `r1`, plus an
ungrouped bystander `r2`. -/
def c4Start : WhiteboardState :=
  { emptyState with objects := [
      (groupId, mkGroup groupId [r1Id] (-10) (-10) 30 30),
      (r1Id, { mkRect r1Id 0 0 10 10 with parentId := some groupId }),
      (r2Id, mkRect r2Id 100 100 10 10)] }

/-- Scenario B configuration: two ungrouped rectangles. -/
def c6Start : WhiteboardState :=
  { emptyState with objects := [
      (r1Id, mkRect r1Id 0 0 10 10),
      (r2Id, mkRect r2Id 100 100 10 10)] }

def d2Id : String := "d2"

/-- Scenario A configuration: rectangle `r1 = (0,0,100,100)` and an arrow
whose start is bound to `r1`'s east anchor. -/
def c1Start : WhiteboardState :=
  { emptyState with objects := [
      (r1Id, mkRect r1Id 0 0 100 100),
      (arrowId, mkArrow arrowId [{ x := 100, y := 50 }, { x := 300, y := 300 }]
        (some { objectId := r1Id, anchorId := AnchorId.e }) none)] }

/-- Symmetric configuration: the arrow's end (rather than start) is bound, to
`r1`'s west anchor. -/
def c1bStart : WhiteboardState :=
  { emptyState with objects := [
      (r1Id, mkRect r1Id 0 0 100 100),
      (arrowId, mkArrow arrowId [{ x := 300, y := 300 }, { x := 0, y := 50 }]
        none (some { objectId := r1Id, anchorId := AnchorId.w }))] }

def c1Geometry : Geometry :=
  { x := 50, y := 0, width := some 100, height := some 100, points := none }

def c1Update : ObjectUpdate :=
  { emptyUpdate with geometry := some c1Geometry }

/-- Configuration for the direct-move witness: an anchored arrow and a free
rectangle, both passed directly to `moveObjects`. -/
def c5Start : WhiteboardState :=
  { emptyState with objects := [
      (r1Id, mkRect r1Id 0 0 100 100),
      (arrowId, mkArrow arrowId [{ x := 100, y := 50 }, { x := 200, y := 200 }]
        (some { objectId := r1Id, anchorId := AnchorId.e }) none),
      (r2Id, mkRect r2Id 300 300 10 10)] }

/-- Scenario D configuration: a group containing a rectangle and an arrow
bound on both ends to the rectangle, plus an outside arrow bound to the
rectangle. -/
def c9Start : WhiteboardState :=
  { emptyState with objects := [
      (groupId, mkGroup groupId [r1Id, arrowId] (-10) (-10) 30 30),
      (r1Id, { mkRect r1Id 0 0 10 10 with parentId := some groupId }),
      (arrowId,
        { mkArrow arrowId [{ x := 10, y := 5 }, { x := 0, y := 5 }]
            (some { objectId := r1Id, anchorId := AnchorId.e })
            (some { objectId := r1Id, anchorId := AnchorId.w }) with
          parentId := some groupId }),
      (d2Id, mkArrow d2Id [{ x := 10, y := 5 }, { x := 100, y := 100 }]
        (some { objectId := r1Id, anchorId := AnchorId.e }) none)] }

end PD

namespace PD

/-! ## Bridge lemmas for the computable rational operations -/

theorem rat_den_cast_ne_zero (a : ℚ) : ((a.den : ℚ)) ≠ 0 := by
  exact_mod_cast a.den_nz

theorem rat_num_eq (a : ℚ) : ((a.num : ℚ)) = a * (a.den : ℚ) := by
  have h := Rat.num_div_den a
  rw [div_eq_iff (rat_den_cast_ne_zero a)] at h
  exact h

@[simp] theorem rAdd_eq (a b : ℚ) : rAdd a b = a + b := by
  unfold rAdd
  rw [Rat.divInt_eq_div]
  push_cast
  rw [div_eq_iff (mul_ne_zero (rat_den_cast_ne_zero a) (rat_den_cast_ne_zero b))]
  rw [rat_num_eq a, rat_num_eq b]
  ring

@[simp] theorem rNeg_eq (a : ℚ) : rNeg a = -a := by
  unfold rNeg
  rw [Rat.divInt_eq_div]
  push_cast
  rw [neg_div, Rat.num_div_den]

@[simp] theorem rSub_eq (a b : ℚ) : rSub a b = a - b := by
  rw [rSub, rAdd_eq, rNeg_eq, sub_eq_add_neg]

@[simp] theorem rMul_eq (a b : ℚ) : rMul a b = a * b := by
  unfold rMul
  rw [Rat.divInt_eq_div]
  push_cast
  rw [div_eq_iff (mul_ne_zero (rat_den_cast_ne_zero a) (rat_den_cast_ne_zero b))]
  rw [rat_num_eq a, rat_num_eq b]
  ring

@[simp] theorem rDiv_eq (a b : ℚ) : rDiv a b = a / b := by
  unfold rDiv
  rcases eq_or_ne b 0 with hb | hb
  · subst hb
    simp
  · have hbnum : ((b.num : ℚ)) ≠ 0 := by exact_mod_cast Rat.num_ne_zero.mpr hb
    rw [Rat.divInt_eq_div]
    push_cast
    rw [div_eq_div_iff (mul_ne_zero (rat_den_cast_ne_zero a) hbnum) hb]
    rw [rat_num_eq a, rat_num_eq b]
    ring

/-! ## History lemmas -/

theorem iterOp_succ_right (f : WhiteboardState → WhiteboardState) (n : Nat) :
    ∀ s, iterOp f (n + 1) s = f (iterOp f n s) := by
  induction n with
  | zero => intro s; rfl
  | succ n ih =>
    intro s
    show iterOp f (n + 1) (f s) = f (iterOp f (n + 1) s)
    rw [ih (f s)]
    rfl

theorem undo_past_of_ne (s : WhiteboardState) (h : s.past ≠ []) :
    (undo s).past = s.past.dropLast := by
  unfold undo
  rw [List.getLast?_eq_getLast s.past h]

theorem redo_undo_of_ne (s : WhiteboardState) (h : s.past ≠ []) : redo (undo s) = s := by
  unfold undo
  rw [List.getLast?_eq_getLast s.past h]
  unfold redo
  simp [List.dropLast_append_getLast]

theorem undo_redo_roundtrip (n : Nat) : ∀ s : WhiteboardState, n ≤ s.past.length →
    iterOp redo n (iterOp undo n s) = s := by
  induction n with
  | zero => intro s _; rfl
  | succ n ih =>
    intro s h
    have hne : s.past ≠ [] := by
      intro hnil
      rw [hnil] at h
      simp at h
    show iterOp redo (n + 1) (iterOp undo n (undo s)) = s
    rw [iterOp_succ_right redo n]
    have hlen : n ≤ (undo s).past.length := by
      rw [undo_past_of_ne s hne, List.length_dropLast]
      omega
    rw [ih (undo s) hlen]
    exact redo_undo_of_ne s hne

theorem applySteps_past_length (steps : List (WhiteboardState → WhiteboardState))
    (h : ∀ f ∈ steps, RecordsHistory f) :
    ∀ s, (applySteps steps s).past.length = s.past.length + steps.length := by
  induction steps with
  | nil => intro s; rfl
  | cons f t ih =>
    intro s
    have hf : RecordsHistory f := h f (List.mem_cons_self f t)
    have ht : ∀ g ∈ t, RecordsHistory g := fun g hg => h g (List.mem_cons_of_mem f hg)
    show (applySteps t (f s)).past.length = s.past.length + (t.length + 1)
    rw [ih ht (f s), (hf s).1]
    simp
    omega

/-! ## Association-map lemmas -/

theorem lookupObj_insertObj_self (m : ObjMap) (k : String) (v : CanvasObject) :
    lookupObj (insertObj m k v) k = some v := by
  induction m with
  | nil => rw [insertObj, lookupObj, if_pos rfl]
  | cons kv t ih =>
    rcases kv with ⟨ek, ev⟩
    rw [insertObj]
    by_cases hk : ek = k
    · rw [if_pos hk, lookupObj, if_pos hk]
    · rw [if_neg hk, lookupObj, if_neg hk]
      exact ih

theorem lookupObj_insertObj_ne (m : ObjMap) (k k2 : String) (v : CanvasObject)
    (h : k ≠ k2) : lookupObj (insertObj m k v) k2 = lookupObj m k2 := by
  induction m with
  | nil =>
    rw [insertObj, lookupObj, lookupObj, if_neg (fun hh : k = k2 => h hh)]
    rfl
  | cons kv t ih =>
    rcases kv with ⟨ek, ev⟩
    rw [insertObj]
    by_cases hk : ek = k
    · have hek2 : ¬ ek = k2 := fun hh => h (hk.symm.trans hh)
      rw [if_pos hk, lookupObj, lookupObj, if_neg hek2, if_neg hek2]
    · rw [if_neg hk, lookupObj, lookupObj]
      by_cases hk2 : ek = k2
      · rw [if_pos hk2, if_pos hk2]
      · rw [if_neg hk2, if_neg hk2]
        exact ih

theorem lookupObj_eraseObj_self (m : ObjMap) (k : String) :
    lookupObj (eraseObj m k) k = none := by
  induction m with
  | nil => rfl
  | cons kv t ih =>
    rcases kv with ⟨ek, ev⟩
    rw [eraseObj]
    by_cases hk : ek = k
    · rw [if_pos hk]
      exact ih
    · rw [if_neg hk, lookupObj, if_neg hk]
      exact ih

theorem lookupObj_eraseObj_ne (m : ObjMap) (k k2 : String) (h : k ≠ k2) :
    lookupObj (eraseObj m k) k2 = lookupObj m k2 := by
  induction m with
  | nil => rfl
  | cons kv t ih =>
    rcases kv with ⟨ek, ev⟩
    rw [eraseObj]
    by_cases hk : ek = k
    · have hek2 : ¬ ek = k2 := fun hh => h (hk.symm.trans hh)
      rw [if_pos hk, lookupObj, if_neg hek2]
      exact ih
    · rw [if_neg hk, lookupObj, lookupObj]
      by_cases hk2 : ek = k2
      · rw [if_pos hk2, if_pos hk2]
      · rw [if_neg hk2, if_neg hk2]
        exact ih

theorem lookupObj_eq_none_iff (m : ObjMap) (k : String) :
    lookupObj m k = none ↔ k ∉ objKeys m := by
  induction m with
  | nil => simp [lookupObj, objKeys]
  | cons kv t ih =>
    rcases kv with ⟨ek, ev⟩
    rw [lookupObj, objKeys]
    by_cases h : ek = k
    · simp [h]
    · simp only [List.map_cons, List.mem_cons, if_neg h]
      rw [ih]
      constructor
      · intro hk
        rintro (hh | hh)
        · exact h hh.symm
        · exact hk hh
      · intro hk
        exact fun hh => hk (Or.inr hh)

theorem lookupObj_isSome_of_mem_keys (m : ObjMap) (k : String) (h : k ∈ objKeys m) :
    (lookupObj m k).isSome := by
  rcases ho : lookupObj m k with _ | v
  · exact absurd ((lookupObj_eq_none_iff m k).mp ho) (by simp [h])
  · rfl

theorem mem_of_lookupObj_eq_some (m : ObjMap) (k : String) (v : CanvasObject)
    (h : lookupObj m k = some v) : (k, v) ∈ m := by
  induction m with
  | nil => simp [lookupObj] at h
  | cons kv t ih =>
    rcases kv with ⟨ek, ev⟩
    by_cases hk : ek = k
    · rw [lookupObj, if_pos hk] at h
      rw [Option.some.injEq] at h
      subst hk
      subst h
      exact List.mem_cons_self _ _
    · rw [lookupObj, if_neg hk] at h
      exact List.mem_cons_of_mem _ (ih h)

theorem mem_keys_of_lookupObj_eq_some (m : ObjMap) (k : String) (v : CanvasObject)
    (h : lookupObj m k = some v) : k ∈ objKeys m := by
  have := mem_of_lookupObj_eq_some m k v h
  exact List.mem_map_of_mem (fun kv => kv.1) this

/-- A fold whose steps all preserve the lookup at `k` preserves it
globally. -/
theorem foldl_lookup_preserved {α : Type} (f : ObjMap → α → ObjMap) (l : List α)
    (k : String) (h : ∀ mm a, a ∈ l → lookupObj (f mm a) k = lookupObj mm k) :
    ∀ m : ObjMap, lookupObj (l.foldl f m) k = lookupObj m k := by
  induction l with
  | nil => intro m; rfl
  | cons a t ih =>
    intro m
    rw [List.foldl_cons]
    rw [ih (fun mm b hb => h mm b (List.mem_cons_of_mem a hb)) (f m a)]
    exact h m a (List.mem_cons_self a t)

/-- A fold over distinct ids in which only the step at its own id can touch
the entry `k` visits `k` exactly once: the final lookup is the lookup after
one step applied at a map whose entry at `k` is still the original one. -/
theorem foldl_lookup_once (f : ObjMap → String → ObjMap) (l : List String) (k : String)
    (hnd : l.Nodup) (hk : k ∈ l)
    (hothers : ∀ mm a, a ≠ k → lookupObj (f mm a) k = lookupObj mm k) :
    ∀ m : ObjMap, ∃ mm, lookupObj (l.foldl f m) k = lookupObj (f mm k) k ∧
      lookupObj mm k = lookupObj m k := by
  induction l with
  | nil => simp at hk
  | cons a t ih =>
    intro m
    rw [List.foldl_cons]
    by_cases ha : a = k
    · subst ha
      have hnotin : a ∉ t := (List.nodup_cons.mp hnd).1
      refine ⟨m, ?_, rfl⟩
      exact foldl_lookup_preserved f t a
        (fun mm b hb => hothers mm b (fun hba => hnotin (hba ▸ hb))) (f m a)
    · have hkt : k ∈ t := by
        rcases List.mem_cons.mp hk with h | h
        · exact absurd h.symm ha
        · exact h
      rcases ih (List.nodup_cons.mp hnd).2 hkt (f m a) with ⟨mm, h1, h2⟩
      exact ⟨mm, h1, by rw [h2, hothers m a ha]⟩

/-! ## Lemmas about the recursive children collection -/

theorem pd_contains_iff (l : List String) (a : String) : l.contains a = true ↔ a ∈ l := by
  induction l with
  | nil => simp
  | cons x t ih =>
    rw [List.contains_cons]
    simp [ih]

theorem sum_filter_imp (p q : String × CanvasObject → Bool)
    (h : ∀ kv, p kv = true → q kv = true) :
    ∀ m : ObjMap, ((m.filter p).map childCount).sum ≤ ((m.filter q).map childCount).sum := by
  intro m
  induction m with
  | nil => exact Nat.le_refl 0
  | cons kv t ih =>
    rw [List.filter_cons, List.filter_cons]
    by_cases hp : p kv = true
    · rw [if_pos hp, if_pos (h kv hp)]
      rw [List.map_cons, List.sum_cons, List.map_cons, List.sum_cons]
      exact Nat.add_le_add_left ih _
    · rw [if_neg hp]
      by_cases hq : q kv = true
      · rw [if_pos hq, List.map_cons, List.sum_cons]
        exact Nat.le_trans ih (Nat.le_add_left _ _)
      · rw [if_neg hq]
        exact ih

theorem pendingWeight_mono (m : ObjMap) (c : List String) (id : String) :
    pendingWeight m (c ++ [id]) ≤ pendingWeight m c := by
  unfold pendingWeight
  apply sum_filter_imp
  intro kv hkv
  cases hcc : List.contains c kv.1 with
  | false => rfl
  | true =>
    exfalso
    have hmem : (c ++ [id]).contains kv.1 = true :=
      (pd_contains_iff _ _).mpr (List.mem_append_left _ ((pd_contains_iff _ _).mp hcc))
    rw [hmem] at hkv
    simp at hkv

theorem contains_append_singleton_of_ne (c : List String) (id x : String) (h : x ≠ id) :
    (c ++ [id]).contains x = c.contains x := by
  cases hc : c.contains x with
  | true =>
    exact (pd_contains_iff _ _).mpr (List.mem_append_left _ ((pd_contains_iff _ _).mp hc))
  | false =>
    cases hc2 : (c ++ [id]).contains x with
    | false => rfl
    | true =>
      exfalso
      rcases List.mem_append.mp ((pd_contains_iff _ _).mp hc2) with hm | hm
      · rw [(pd_contains_iff _ _).mpr hm] at hc
        exact Bool.noConfusion hc
      · exact h (List.mem_singleton.mp hm)

theorem pendingWeight_drop (m : ObjMap) (c : List String) (id : String) (obj : CanvasObject)
    (cs : List String) (hlook : lookupObj m id = some obj) (hcs : obj.children = some cs)
    (hid : id ∉ c) :
    cs.length + pendingWeight m (c ++ [id]) ≤ pendingWeight m c := by
  unfold pendingWeight
  induction m with
  | nil => simp [lookupObj] at hlook
  | cons kv t ih =>
    rcases kv with ⟨ek, ev⟩
    by_cases hek : ek = id
    · subst hek
      rw [lookupObj, if_pos rfl, Option.some.injEq] at hlook
      subst hlook
      have hq : (!(c.contains ek)) = true := by
        cases hc : c.contains ek with
        | false => rfl
        | true => exact absurd ((pd_contains_iff _ _).mp hc) hid
      have hp : (!((c ++ [ek]).contains ek)) = false := by
        have : (c ++ [ek]).contains ek = true :=
          (pd_contains_iff _ _).mpr (List.mem_append_right _ (List.mem_singleton_self ek))
        rw [this]
        rfl
      rw [List.filter_cons, List.filter_cons]
      rw [if_neg (by rw [hp]; exact fun h => Bool.noConfusion h), if_pos hq]
      rw [List.map_cons, List.sum_cons]
      have hcc : childCount (ek, ev) = cs.length := by
        unfold childCount
        rw [hcs]
        rfl
      rw [hcc]
      apply Nat.add_le_add_left
      apply sum_filter_imp
      intro kv2 hkv2
      cases hcc2 : List.contains c kv2.1 with
      | false => rfl
      | true =>
        exfalso
        have hmem : (c ++ [ek]).contains kv2.1 = true :=
          (pd_contains_iff _ _).mpr (List.mem_append_left _ ((pd_contains_iff _ _).mp hcc2))
        rw [hmem] at hkv2
        simp at hkv2
    · rw [lookupObj, if_neg hek] at hlook
      have hsame : ((c ++ [id]).contains ek) = (c.contains ek) :=
        contains_append_singleton_of_ne c id ek hek
      rw [List.filter_cons, List.filter_cons]
      have ih' := ih hlook
      by_cases hc : (!(c.contains ek)) = true
      · rw [if_pos (by rw [hsame]; exact hc), if_pos hc]
        rw [List.map_cons, List.sum_cons, List.map_cons, List.sum_cons]
        omega
      · rw [if_neg (by rw [hsame]; exact hc), if_neg hc]
        exact ih'

theorem mem_collectRec_of_mem_collected (m : ObjMap) :
    ∀ (fuel : Nat) (work collected : List String) (a : String), a ∈ collected →
      a ∈ collectRec m fuel work collected := by
  intro fuel
  induction fuel with
  | zero =>
    intro work collected a ha
    exact ha
  | succ fuel ih =>
    intro work collected a ha
    cases work with
    | nil => exact ha
    | cons id rest =>
      rw [collectRec]
      by_cases hid : collected.contains id = true
      · rw [if_pos hid]
        exact ih rest collected a ha
      · rw [if_neg hid]
        split
        · exact ih _ _ a (List.mem_append_left _ ha)
        · exact ih _ _ a (List.mem_append_left _ ha)

theorem mem_collectRec_of_mem_work (m : ObjMap) :
    ∀ (fuel : Nat) (work collected : List String),
      work.length + pendingWeight m collected < fuel →
      ∀ a ∈ work, a ∈ collectRec m fuel work collected := by
  intro fuel
  induction fuel with
  | zero =>
    intro work collected hfuel
    omega
  | succ fuel ih =>
    intro work collected hfuel a ha
    cases work with
    | nil => cases ha
    | cons id rest =>
      rw [List.length_cons] at hfuel
      rw [collectRec]
      by_cases hid : collected.contains id = true
      · rw [if_pos hid]
        rcases List.mem_cons.mp ha with rfl | hrest
        · exact mem_collectRec_of_mem_collected m fuel rest collected a
            ((pd_contains_iff _ _).mp hid)
        · exact ih rest collected (by omega) a hrest
      · rw [if_neg hid]
        have hidmem : id ∉ collected := fun hmem => hid ((pd_contains_iff _ _).mpr hmem)
        split
        · rename_i cs hcs
          rcases Option.bind_eq_some.mp hcs with ⟨obj, hobj, hch⟩
          have hdrop := pendingWeight_drop m collected id obj cs hobj hch hidmem
          have hf2 : (cs ++ rest).length + pendingWeight m (collected ++ [id]) < fuel := by
            rw [List.length_append]
            omega
          rcases List.mem_cons.mp ha with rfl | hrest
          · exact mem_collectRec_of_mem_collected m fuel _ _ a
              (List.mem_append_right _ (List.mem_singleton_self a))
          · exact ih _ _ hf2 a (List.mem_append_right _ hrest)
        · have hmono := pendingWeight_mono m collected id
          have hf2 : rest.length + pendingWeight m (collected ++ [id]) < fuel := by omega
          rcases List.mem_cons.mp ha with rfl | hrest
          · exact mem_collectRec_of_mem_collected m fuel _ _ a
              (List.mem_append_right _ (List.mem_singleton_self a))
          · exact ih _ _ hf2 a hrest

theorem collectRec_closed (m : ObjMap) :
    ∀ (fuel : Nat) (work collected : List String),
      work.length + pendingWeight m collected < fuel →
      ∀ x, x ∈ collectRec m fuel work collected → x ∉ collected →
      ∀ obj cs, lookupObj m x = some obj → obj.children = some cs →
      ∀ c ∈ cs, c ∈ collectRec m fuel work collected := by
  intro fuel
  induction fuel with
  | zero =>
    intro work collected hfuel
    omega
  | succ fuel ih =>
    intro work collected hfuel x hx hxc obj cs hobj hcs c hc
    cases work with
    | nil => exact absurd hx hxc
    | cons id rest =>
      rw [List.length_cons] at hfuel
      rw [collectRec] at hx ⊢
      by_cases hid : collected.contains id = true
      · rw [if_pos hid] at hx ⊢
        exact ih rest collected (by omega) x hx hxc obj cs hobj hcs c hc
      · rw [if_neg hid] at hx ⊢
        have hidmem : id ∉ collected := fun hmem => hid ((pd_contains_iff _ _).mpr hmem)
        rcases hbind : (lookupObj m id).bind (fun o => o.children) with _ | cs0
        · rw [hbind] at hx
          have hmono := pendingWeight_mono m collected id
          have hf2 : rest.length + pendingWeight m (collected ++ [id]) < fuel := by omega
          by_cases hxid : x = id
          · exfalso
            subst hxid
            rw [hobj] at hbind
            rw [Option.some_bind, hcs] at hbind
            exact Option.noConfusion hbind
          · have hxc2 : x ∉ collected ++ [id] := by
              intro hmem
              rcases List.mem_append.mp hmem with hm | hm
              · exact hxc hm
              · exact hxid (List.mem_singleton.mp hm)
            exact ih _ _ hf2 x hx hxc2 obj cs hobj hcs c hc
        · rw [hbind] at hx
          rcases Option.bind_eq_some.mp hbind with ⟨obj0, hobj0, hch0⟩
          have hdrop := pendingWeight_drop m collected id obj0 cs0 hobj0 hch0 hidmem
          have hf2 : (cs0 ++ rest).length + pendingWeight m (collected ++ [id]) < fuel := by
            rw [List.length_append]
            omega
          by_cases hxid : x = id
          · subst hxid
            rw [hobj0] at hobj
            rw [Option.some.injEq] at hobj
            subst hobj
            rw [hch0] at hcs
            rw [Option.some.injEq] at hcs
            subst hcs
            exact mem_collectRec_of_mem_work m fuel _ _ hf2 c
              (List.mem_append_left _ hc)
          · have hxc2 : x ∉ collected ++ [id] := by
              intro hmem
              rcases List.mem_append.mp hmem with hm | hm
              · exact hxc hm
              · exact hxid (List.mem_singleton.mp hm)
            exact ih _ _ hf2 x hx hxc2 obj cs hobj hcs c hc

theorem collectRec_nodup (m : ObjMap) :
    ∀ (fuel : Nat) (work collected : List String), collected.Nodup →
      (collectRec m fuel work collected).Nodup := by
  intro fuel
  induction fuel with
  | zero =>
    intro work collected h
    exact h
  | succ fuel ih =>
    intro work collected h
    cases work with
    | nil => exact h
    | cons id rest =>
      rw [collectRec]
      by_cases hid : collected.contains id = true
      · rw [if_pos hid]
        exact ih rest collected h
      · rw [if_neg hid]
        have hidmem : id ∉ collected := fun hmem => hid ((pd_contains_iff _ _).mpr hmem)
        have hnd : (collected ++ [id]).Nodup :=
          List.Nodup.append h (List.nodup_singleton id)
            (fun a hac hai => hidmem (by rwa [List.mem_singleton.mp hai] at hac))
        split
        · exact ih _ _ hnd
        · exact ih _ _ hnd

theorem mem_getRecursiveChildrenIds_of_mem (m : ObjMap) (ids : List String) (a : String)
    (ha : a ∈ ids) : a ∈ getRecursiveChildrenIds m ids :=
  mem_collectRec_of_mem_work m _ ids [] (Nat.lt_succ_self _) a ha

theorem getRecursiveChildrenIds_closed (m : ObjMap) (ids : List String) (x : String)
    (hx : x ∈ getRecursiveChildrenIds m ids) (obj : CanvasObject) (cs : List String)
    (hobj : lookupObj m x = some obj) (hcs : obj.children = some cs) :
    ∀ c ∈ cs, c ∈ getRecursiveChildrenIds m ids :=
  collectRec_closed m _ ids [] (Nat.lt_succ_self _) x hx (List.not_mem_nil x) obj cs hobj hcs

theorem getRecursiveChildrenIds_nodup (m : ObjMap) (ids : List String) :
    (getRecursiveChildrenIds m ids).Nodup :=
  collectRec_nodup m _ ids [] List.nodup_nil

/-- Every transitive descendant of a requested id is collected. -/
theorem descendant_mem_getRecursiveChildrenIds (m : ObjMap) (ids : List String) (a : String)
    (ha : a ∈ ids) (x : String) (hx : DescendantOf m a x) :
    x ∈ getRecursiveChildrenIds m ids := by
  induction hx with
  | single h =>
    rcases h with ⟨v, hv, hmem⟩
    cases hch : v.children with
    | none =>
      rw [hch] at hmem
      cases hmem
    | some cs =>
      rw [hch] at hmem
      rw [Option.getD_some] at hmem
      exact getRecursiveChildrenIds_closed m ids a
        (mem_getRecursiveChildrenIds_of_mem m ids a ha) v cs hv hch _ hmem
  | tail hab hstep ih =>
    rcases hstep with ⟨v, hv, hmem⟩
    cases hch : v.children with
    | none =>
      rw [hch] at hmem
      cases hmem
    | some cs =>
      rw [hch] at hmem
      rw [Option.getD_some] at hmem
      exact getRecursiveChildrenIds_closed m ids _ ih v cs hv hch _ hmem

/-! ## Lemmas about moveObjects -/

theorem foldl_preserve_prop {α : Type} (f : ObjMap → α → ObjMap) (P : ObjMap → Prop)
    (l : List α) (h : ∀ mm a, a ∈ l → P mm → P (f mm a)) :
    ∀ m, P m → P (l.foldl f m) := by
  induction l with
  | nil =>
    intro m hm
    exact hm
  | cons a t ih =>
    intro m hm
    exact ih (fun mm b hb => h mm b (List.mem_cons_of_mem a hb)) (f m a)
      (h m a (List.mem_cons_self a t) hm)

theorem foldl_objKeys {α : Type} (f : ObjMap → α → ObjMap) (l : List α)
    (h : ∀ mm a, a ∈ l → objKeys (f mm a) = objKeys mm) :
    ∀ m, objKeys (l.foldl f m) = objKeys m := by
  induction l with
  | nil => intro m; rfl
  | cons a t ih =>
    intro m
    rw [List.foldl_cons, ih (fun mm b hb => h mm b (List.mem_cons_of_mem a hb)) (f m a),
      h m a (List.mem_cons_self a t)]

theorem objKeys_insertObj_mem (m : ObjMap) (k : String) (v : CanvasObject)
    (h : k ∈ objKeys m) : objKeys (insertObj m k v) = objKeys m := by
  induction m with
  | nil => cases h
  | cons kv t ih =>
    rcases kv with ⟨ek, ev⟩
    rw [insertObj]
    by_cases hk : ek = k
    · rw [if_pos hk]
      simp [objKeys]
    · rw [if_neg hk]
      have hk2 : k ∈ objKeys t := by
        simp only [objKeys, List.map_cons, List.mem_cons] at h
        rcases h with h | h
        · exact absurd h.symm hk
        · exact h
      simp only [objKeys, List.map_cons]
      rw [show List.map (fun kv => kv.1) (insertObj t k v) = objKeys (insertObj t k v) from rfl,
        ih hk2]
      rfl

theorem moveOnePass_lookup_ne (dx dy : ℚ) (mm : ObjMap) (a k : String) (h : a ≠ k) :
    lookupObj (moveOnePass dx dy mm a) k = lookupObj mm k := by
  unfold moveOnePass
  split
  · rfl
  · split
    · rw [lookupObj_insertObj_ne _ _ _ _ h]
    · rw [lookupObj_insertObj_ne _ _ _ _ h]

theorem moveOnePass_lookup_self (dx dy : ℚ) (mm : ObjMap) (k : String) :
    lookupObj (moveOnePass dx dy mm k) k =
      (lookupObj mm k).map (fun obj =>
        if (obj.type = COT.arrow ∨ obj.type = COT.line) ∧ obj.geometry.points.isSome then
          movedConnector dx dy obj
        else movedShape dx dy obj) := by
  unfold moveOnePass
  rcases hk : lookupObj mm k with _ | obj
  · exact hk
  · simp only [Option.map_some']
    split
    · rw [lookupObj_insertObj_self]
    · rw [lookupObj_insertObj_self]

theorem objKeys_moveOnePass (dx dy : ℚ) (mm : ObjMap) (a : String) :
    objKeys (moveOnePass dx dy mm a) = objKeys mm := by
  unfold moveOnePass
  split
  · rfl
  · rename_i obj hobj
    have hmem := mem_keys_of_lookupObj_eq_some _ _ _ hobj
    split
    · exact objKeys_insertObj_mem _ _ _ hmem
    · exact objKeys_insertObj_mem _ _ _ hmem

theorem followOnePass_lookup_ne (mv : List String) (dx dy : ℚ) (mm : ObjMap) (a k : String)
    (h : a ≠ k) : lookupObj (followOnePass mv dx dy mm a) k = lookupObj mm k := by
  unfold followOnePass
  split
  · rfl
  · split
    · rfl
    · split
      · simp only []
        split
        · rw [lookupObj_insertObj_ne _ _ _ _ h]
        · rfl
      · rfl

theorem followOnePass_moved (mv : List String) (dx dy : ℚ) (mm : ObjMap) (k : String)
    (h : k ∈ mv) : followOnePass mv dx dy mm k = mm := by
  unfold followOnePass
  rw [if_pos ((pd_contains_iff _ _).mpr h)]

theorem moveBoundsPass_lookup_ne (acc : ObjMap) (pid k : String) (h : pid ≠ k) :
    lookupObj (moveBoundsPass acc pid) k = lookupObj acc k := by
  unfold moveBoundsPass
  split
  · rfl
  · split
    · rfl
    · split
      · rw [lookupObj_insertObj_ne _ _ _ _ h]
      · rfl

theorem moveBoundsPass_keep (cid : String) (C' : CanvasObject) (hch : C'.children = none)
    (acc : ObjMap) (pid : String) (hP : lookupObj acc cid = some C') :
    lookupObj (moveBoundsPass acc pid) cid = some C' := by
  by_cases hpid : pid = cid
  · subst hpid
    unfold moveBoundsPass
    rw [hP]
    simp only []
    rw [hch]
    exact hP
  · rw [moveBoundsPass_lookup_ne acc pid cid hpid]
    exact hP

theorem moveStage1_lookup_mem (m : ObjMap) (mv : List String) (dx dy : ℚ) (k : String)
    (hnd : mv.Nodup) (hk : k ∈ mv) :
    lookupObj (moveStage1 m mv dx dy) k =
      (lookupObj m k).map (fun obj =>
        if (obj.type = COT.arrow ∨ obj.type = COT.line) ∧ obj.geometry.points.isSome then
          movedConnector dx dy obj
        else movedShape dx dy obj) := by
  unfold moveStage1
  obtain ⟨mm, h1, h2⟩ := foldl_lookup_once (moveOnePass dx dy) mv k hnd hk
    (fun mm a ha => moveOnePass_lookup_ne dx dy mm a k ha) m
  rw [h1, moveOnePass_lookup_self, h2]

theorem moveStage1_lookup_not_mem (m : ObjMap) (mv : List String) (dx dy : ℚ) (k : String)
    (hk : k ∉ mv) : lookupObj (moveStage1 m mv dx dy) k = lookupObj m k := by
  unfold moveStage1
  exact foldl_lookup_preserved _ mv k
    (fun mm a ha => moveOnePass_lookup_ne dx dy mm a k (fun hak => hk (hak ▸ ha))) m

theorem objKeys_moveStage1 (m : ObjMap) (mv : List String) (dx dy : ℚ) :
    objKeys (moveStage1 m mv dx dy) = objKeys m := by
  unfold moveStage1
  exact foldl_objKeys _ mv (fun mm a _ => objKeys_moveOnePass dx dy mm a) m

theorem moveStage2_lookup_moved (m1 : ObjMap) (mv : List String) (dx dy : ℚ) (k : String)
    (hk : k ∈ mv) : lookupObj (moveStage2 m1 mv dx dy) k = lookupObj m1 k := by
  unfold moveStage2
  apply foldl_lookup_preserved
  intro mm a _
  by_cases hak : a = k
  · subst hak
    rw [followOnePass_moved mv dx dy mm a hk]
  · exact followOnePass_lookup_ne mv dx dy mm a k hak

theorem moveStage3_keep (m2 : ObjMap) (mv : List String) (cid : String) (C' : CanvasObject)
    (hch : C'.children = none) (hP : lookupObj m2 cid = some C') :
    lookupObj (moveStage3 m2 mv) cid = some C' := by
  unfold moveStage3
  exact foldl_preserve_prop moveBoundsPass (fun mm => lookupObj mm cid = some C')
    (moveParents m2 mv) (fun mm a _ hp => moveBoundsPass_keep cid C' hch mm a hp) m2 hP

/-- What `moveObjects` does to the entry of a connector inside the moved
closure (shared by the direct-ids and recursive-closure claims). -/
theorem move_connector_in_closure (s : WhiteboardState) (ids : List String) (dx dy : ℚ)
    (b : Bool) (cid : String) (C : CanvasObject)
    (hmem : cid ∈ getRecursiveChildrenIds s.objects ids)
    (hC : lookupObj s.objects cid = some C)
    (htype : C.type = COT.arrow ∨ C.type = COT.line)
    (hps : C.geometry.points.isSome)
    (hch : C.children = none) :
    lookupObj (moveObjects s ids dx dy b).objects cid = some (movedConnector dx dy C) := by
  show lookupObj
    (moveStage3
      (moveStage2 (moveStage1 s.objects (getRecursiveChildrenIds s.objects ids) dx dy)
        (getRecursiveChildrenIds s.objects ids) dx dy)
      (getRecursiveChildrenIds s.objects ids)) cid = some (movedConnector dx dy C)
  have h1 : lookupObj (moveStage1 s.objects (getRecursiveChildrenIds s.objects ids) dx dy)
      cid = some (movedConnector dx dy C) := by
    rw [moveStage1_lookup_mem s.objects _ dx dy cid (getRecursiveChildrenIds_nodup _ _) hmem,
      hC, Option.map_some']
    rw [if_pos ⟨htype, hps⟩]
  have h2 : lookupObj
      (moveStage2 (moveStage1 s.objects (getRecursiveChildrenIds s.objects ids) dx dy)
        (getRecursiveChildrenIds s.objects ids) dx dy) cid = some (movedConnector dx dy C) := by
    rw [moveStage2_lookup_moved _ _ dx dy cid hmem]
    exact h1
  exact moveStage3_keep _ _ cid (movedConnector dx dy C) hch h2

/-- What `moveObjects` does to the entry of a childless non-connector object
inside the moved closure. -/
theorem move_shape_in_closure (s : WhiteboardState) (ids : List String) (dx dy : ℚ)
    (b : Bool) (rid : String) (R : CanvasObject)
    (hmem : rid ∈ getRecursiveChildrenIds s.objects ids)
    (hR : lookupObj s.objects rid = some R)
    (htype : ¬ (R.type = COT.arrow ∨ R.type = COT.line))
    (hch : R.children = none) :
    lookupObj (moveObjects s ids dx dy b).objects rid = some (movedShape dx dy R) := by
  show lookupObj
    (moveStage3
      (moveStage2 (moveStage1 s.objects (getRecursiveChildrenIds s.objects ids) dx dy)
        (getRecursiveChildrenIds s.objects ids) dx dy)
      (getRecursiveChildrenIds s.objects ids)) rid = some (movedShape dx dy R)
  have h1 : lookupObj (moveStage1 s.objects (getRecursiveChildrenIds s.objects ids) dx dy)
      rid = some (movedShape dx dy R) := by
    rw [moveStage1_lookup_mem s.objects _ dx dy rid (getRecursiveChildrenIds_nodup _ _) hmem,
      hR, Option.map_some']
    rw [if_neg (fun hc => htype hc.1)]
  have h2 : lookupObj
      (moveStage2 (moveStage1 s.objects (getRecursiveChildrenIds s.objects ids) dx dy)
        (getRecursiveChildrenIds s.objects ids) dx dy) rid = some (movedShape dx dy R) := by
    rw [moveStage2_lookup_moved _ _ dx dy rid hmem]
    exact h1
  exact moveStage3_keep _ _ rid (movedShape dx dy R) hch h2

/-- Evaluation of the connector-follow pass on an unmoved connector whose
start endpoint is bound to a moved object. -/
theorem followOnePass_eval (mv : List String) (dx dy : ℚ) (mm : ObjMap) (did : String)
    (D : CanvasObject) (sc : Connection) (ps : List Point) (p0 : Point)
    (hout : did ∉ mv) (hD : lookupObj mm did = some D)
    (htype : D.type = COT.arrow ∨ D.type = COT.line)
    (hstart : D.startConnection = some sc) (hsc : sc.objectId ∈ mv)
    (hps : D.geometry.points = some ps) (hlen : 2 ≤ ps.length) (hp0 : ps[0]? = some p0) :
    ∃ D', lookupObj (followOnePass mv dx dy mm did) did = some D' ∧
      D'.startConnection = some sc ∧ D'.endConnection = D.endConnection ∧
      D'.children = D.children ∧
      ∃ ps', D'.geometry.points = some ps' ∧
        ps'[0]? = some { x := rAdd p0.x dx, y := rAdd p0.y dy } := by
  have hcont : ¬ (mv.contains did = true) := fun hc => hout ((pd_contains_iff _ _).mp hc)
  have hhead : ps.head? = some p0 := by
    rw [List.head?_eq_getElem?]
    exact hp0
  have hcsc : mv.contains sc.objectId = true := (pd_contains_iff _ _).mpr hsc
  have hps0 : D.geometry.points.getD [] = ps := by
    rw [hps]
    rfl
  have hpos : 0 < ps.length := by omega
  unfold followOnePass
  rw [if_neg hcont, hD]
  simp only []
  rw [if_pos htype]
  rw [hps0, hstart]
  simp only []
  rw [if_pos hcsc, hhead]
  simp only []
  rcases hend : D.endConnection with _ | ec
  · simp only []
    rw [if_pos trivial]
    refine ⟨_, lookupObj_insertObj_self _ _ _, rfl, rfl, rfl, _, rfl, ?_⟩
    rw [List.getElem?_set_self hpos]
  · simp only []
    by_cases hcec : mv.contains ec.objectId = true
    · rw [if_pos hcec]
      have hne : (ps.set 0 { x := rAdd p0.x dx, y := rAdd p0.y dy }) ≠ [] := by
        intro hnil
        have hl := List.length_set ps 0 { x := rAdd p0.x dx, y := rAdd p0.y dy }
        rw [hnil] at hl
        simp at hl
        omega
      obtain ⟨q, hq⟩ := Option.isSome_iff_exists.mp (List.getLast?_isSome.mpr hne)
      rw [hq]
      simp only []
      rw [if_pos trivial]
      have hne0 : (ps.set 0 { x := rAdd p0.x dx, y := rAdd p0.y dy }).length - 1 ≠ 0 := by
        rw [List.length_set]
        omega
      refine ⟨_, lookupObj_insertObj_self _ _ _, rfl, rfl, rfl, _, rfl, ?_⟩
      rw [List.getElem?_set_ne hne0, List.getElem?_set_self hpos]
    · rw [if_neg hcec]
      simp only []
      rw [if_pos trivial]
      refine ⟨_, lookupObj_insertObj_self _ _ _, rfl, rfl, rfl, _, rfl, ?_⟩
      rw [List.getElem?_set_self hpos]

/-- C5: every connector whose id is passed directly to `moveObjects` ends up
with every point translated by `(dx, dy)` and both `startConnection` and
`endConnection` cleared, while childless area shapes in the id list have
their `x` and `y` translated by `(dx, dy)`. -/
theorem C5_direct_move_clears_connections (s : WhiteboardState) (ids : List String)
    (dx dy : ℚ) (b : Bool) :
    (∀ cid C, cid ∈ ids → lookupObj s.objects cid = some C →
      (C.type = COT.arrow ∨ C.type = COT.line) → C.geometry.points.isSome = true →
      C.children = none →
      lookupObj (moveObjects s ids dx dy b).objects cid = some (movedConnector dx dy C)) ∧
    (∀ rid R, rid ∈ ids → lookupObj s.objects rid = some R →
      ¬ (R.type = COT.arrow ∨ R.type = COT.line) → R.children = none →
      lookupObj (moveObjects s ids dx dy b).objects rid = some (movedShape dx dy R)) := by
  constructor
  · intro cid C hmem hC htype hps hch
    exact move_connector_in_closure s ids dx dy b cid C
      (mem_getRecursiveChildrenIds_of_mem _ _ _ hmem) hC htype hps hch
  · intro rid R hmem hR htype hch
    exact move_shape_in_closure s ids dx dy b rid R
      (mem_getRecursiveChildrenIds_of_mem _ _ _ hmem) hR htype hch

/-- Witness for C5: moving an anchored arrow and a rectangle directly; the
arrow is translated with both bindings cleared, the rectangle is
translated. -/
theorem C5_witness :
    lookupObj (moveObjects c5Start [arrowId, r2Id] 3 4 true).objects arrowId =
      some (movedConnector 3 4 (mkArrow arrowId [{ x := 100, y := 50 }, { x := 200, y := 200 }]
        (some { objectId := r1Id, anchorId := AnchorId.e }) none)) ∧
    lookupObj (moveObjects c5Start [arrowId, r2Id] 3 4 true).objects r2Id =
      some (movedShape 3 4 (mkRect r2Id 300 300 10 10)) ∧
    (movedConnector 3 4 (mkArrow arrowId [{ x := 100, y := 50 }, { x := 200, y := 200 }]
      (some { objectId := r1Id, anchorId := AnchorId.e }) none)).geometry.points =
      some [{ x := 103, y := 54 }, { x := 203, y := 204 }] ∧
    (movedConnector 3 4 (mkArrow arrowId [{ x := 100, y := 50 }, { x := 200, y := 200 }]
      (some { objectId := r1Id, anchorId := AnchorId.e }) none)).startConnection = none :=
  ⟨(C5_direct_move_clears_connections c5Start [arrowId, r2Id] 3 4 true).1 arrowId
      (mkArrow arrowId [{ x := 100, y := 50 }, { x := 200, y := 200 }]
        (some { objectId := r1Id, anchorId := AnchorId.e }) none)
      (by decide) (by decide) (by decide) (by decide) (by decide),
    (C5_direct_move_clears_connections c5Start [arrowId, r2Id] 3 4 true).2 r2Id
      (mkRect r2Id 300 300 10 10) (by decide) (by decide) (by decide) (by decide),
    by decide, by decide⟩

/-- C9: `moveObjects` clears the bindings of every (childless) connector in
the recursive children closure of `ids`, translating its points once, while a
connector outside the moved closure keeps both bindings and has its bound
start endpoint translated by `(dx, dy)`. -/
theorem C9_closure_move_semantics (s : WhiteboardState) (ids : List String)
    (dx dy : ℚ) (b : Bool) :
    (∀ cid C, cid ∈ getRecursiveChildrenIds s.objects ids →
      lookupObj s.objects cid = some C →
      (C.type = COT.arrow ∨ C.type = COT.line) → C.geometry.points.isSome = true →
      C.children = none →
      lookupObj (moveObjects s ids dx dy b).objects cid = some (movedConnector dx dy C)) ∧
    (∀ did D sc ps p0, (objKeys s.objects).Nodup →
      did ∉ getRecursiveChildrenIds s.objects ids →
      lookupObj s.objects did = some D →
      (D.type = COT.arrow ∨ D.type = COT.line) →
      D.startConnection = some sc → sc.objectId ∈ getRecursiveChildrenIds s.objects ids →
      D.children = none →
      D.geometry.points = some ps → 2 ≤ ps.length → ps[0]? = some p0 →
      ∃ D', lookupObj (moveObjects s ids dx dy b).objects did = some D' ∧
        D'.startConnection = some sc ∧ D'.endConnection = D.endConnection ∧
        D'.children = none ∧
        ∃ ps', D'.geometry.points = some ps' ∧
          ps'[0]? = some { x := rAdd p0.x dx, y := rAdd p0.y dy }) := by
  constructor
  · intro cid C hmem hC htype hps hch
    exact move_connector_in_closure s ids dx dy b cid C hmem hC htype hps hch
  · intro did D sc ps p0 hnd hout hD htype hstart hsc hch hps hlen hp0
    have hobjeq : (moveObjects s ids dx dy b).objects =
        moveStage3
          (moveStage2 (moveStage1 s.objects (getRecursiveChildrenIds s.objects ids) dx dy)
            (getRecursiveChildrenIds s.objects ids) dx dy)
          (getRecursiveChildrenIds s.objects ids) := rfl
    rw [hobjeq]
    have hm1 : lookupObj
        (moveStage1 s.objects (getRecursiveChildrenIds s.objects ids) dx dy) did =
        lookupObj s.objects did :=
      moveStage1_lookup_not_mem _ _ _ _ _ hout
    have hkeys : objKeys (moveStage1 s.objects (getRecursiveChildrenIds s.objects ids) dx dy) =
        objKeys s.objects := objKeys_moveStage1 _ _ _ _
    have hdidk : did ∈ objKeys
        (moveStage1 s.objects (getRecursiveChildrenIds s.objects ids) dx dy) := by
      rw [hkeys]
      exact mem_keys_of_lookupObj_eq_some _ _ _ hD
    have hndk : (objKeys
        (moveStage1 s.objects (getRecursiveChildrenIds s.objects ids) dx dy)).Nodup := by
      rw [hkeys]
      exact hnd
    obtain ⟨mm2, h2a, h2b⟩ := foldl_lookup_once
      (followOnePass (getRecursiveChildrenIds s.objects ids) dx dy)
      (objKeys (moveStage1 s.objects (getRecursiveChildrenIds s.objects ids) dx dy)) did
      hndk hdidk
      (fun mm a ha => followOnePass_lookup_ne _ dx dy mm a did ha)
      (moveStage1 s.objects (getRecursiveChildrenIds s.objects ids) dx dy)
    have hmm2 : lookupObj mm2 did = some D := by
      rw [h2b, hm1]
      exact hD
    obtain ⟨D', hD', hs', he', hch', ps', hps', hidx⟩ :=
      followOnePass_eval (getRecursiveChildrenIds s.objects ids) dx dy mm2 did D sc ps p0
        hout hmm2 htype hstart hsc hps hlen hp0
    have h2 : lookupObj
        (moveStage2 (moveStage1 s.objects (getRecursiveChildrenIds s.objects ids) dx dy)
          (getRecursiveChildrenIds s.objects ids) dx dy) did = some D' := by
      unfold moveStage2
      rw [h2a]
      exact hD'
    have hchD' : D'.children = none := by
      rw [hch']
      exact hch
    exact ⟨D', moveStage3_keep _ _ did D' hchD' h2, hs', he', hchD', ps', hps', hidx⟩

/-- Witness for C9, Scenario D: moving the group translates and unbinds the
arrow child exactly once; the outside arrow bound to the moved rectangle
keeps its bindings and has its bound endpoint translated. -/
theorem C9_witness :
    lookupObj (moveObjects c9Start [groupId] 5 5 true).objects arrowId =
      some (movedConnector 5 5
        (({ mkArrow arrowId [{ x := 10, y := 5 }, { x := 0, y := 5 }]
            (some { objectId := r1Id, anchorId := AnchorId.e })
            (some { objectId := r1Id, anchorId := AnchorId.w }) with
          parentId := some groupId }) : CanvasObject)) ∧
    (movedConnector 5 5
      (({ mkArrow arrowId [{ x := 10, y := 5 }, { x := 0, y := 5 }]
          (some { objectId := r1Id, anchorId := AnchorId.e })
          (some { objectId := r1Id, anchorId := AnchorId.w }) with
        parentId := some groupId }) : CanvasObject)).geometry.points =
      some [{ x := 15, y := 10 }, { x := 5, y := 10 }] ∧
    (∃ D', lookupObj (moveObjects c9Start [groupId] 5 5 true).objects d2Id = some D' ∧
      D'.startConnection = some { objectId := r1Id, anchorId := AnchorId.e } ∧
      D'.endConnection = none ∧ D'.children = none ∧
      ∃ ps', D'.geometry.points = some ps' ∧
        ps'[0]? = some { x := rAdd (10 : ℚ) 5, y := rAdd (5 : ℚ) 5 }) :=
  ⟨(C9_closure_move_semantics c9Start [groupId] 5 5 true).1 arrowId
      ({ mkArrow arrowId [{ x := 10, y := 5 }, { x := 0, y := 5 }]
          (some { objectId := r1Id, anchorId := AnchorId.e })
          (some { objectId := r1Id, anchorId := AnchorId.w }) with
        parentId := some groupId })
      (by decide) (by decide) (by decide) (by decide) (by decide),
    by decide,
    (C9_closure_move_semantics c9Start [groupId] 5 5 true).2 d2Id
      (mkArrow d2Id [{ x := 10, y := 5 }, { x := 100, y := 100 }]
        (some { objectId := r1Id, anchorId := AnchorId.e }) none)
      { objectId := r1Id, anchorId := AnchorId.e }
      [{ x := 10, y := 5 }, { x := 100, y := 100 }] { x := 10, y := 5 }
      (by decide) (by decide) (by decide) (by decide) (by decide) (by decide) (by decide)
      (by decide) (by decide) (by decide)⟩

/-! ## Lemmas about updateObject -/

theorem skelEq_refl (v : CanvasObject) : SkelEq v v := by
  refine ⟨rfl, rfl, rfl, rfl, rfl, rfl, ?_⟩
  rcases hp : v.geometry.points with _ | ps
  · exact Or.inl ⟨rfl, rfl⟩
  · exact Or.inr ⟨ps, ps, rfl, rfl, rfl⟩

theorem skelEq_trans (u v w : CanvasObject) (h1 : SkelEq u v) (h2 : SkelEq v w) :
    SkelEq u w := by
  obtain ⟨a1, b1, c1, d1, e1, f1, g1⟩ := h1
  obtain ⟨a2, b2, c2, d2, e2, f2, g2⟩ := h2
  refine ⟨a2.trans a1, b2.trans b1, c2.trans c1, d2.trans d1, e2.trans e1, f2.trans f1, ?_⟩
  rcases g1 with ⟨hu, hv⟩ | ⟨ps, qs, hu, hv, hlen⟩
  · rcases g2 with ⟨hv2, hw⟩ | ⟨ps2, qs2, hv2, hw, hlen2⟩
    · exact Or.inl ⟨hu, hw⟩
    · rw [hv] at hv2
      exact Option.noConfusion hv2
  · rcases g2 with ⟨hv2, hw⟩ | ⟨ps2, qs2, hv2, hw, hlen2⟩
    · rw [hv] at hv2
      exact Option.noConfusion hv2
    · rw [hv] at hv2
      rw [Option.some.injEq] at hv2
      subst hv2
      exact Or.inr ⟨ps, qs2, hu, hw, hlen2.trans hlen⟩

theorem scaleChild_skel (og ng : Geometry) (sx sy : ℚ) (child : CanvasObject) :
    SkelEq child (scaleChild og ng sx sy child) := by
  unfold scaleChild
  rcases hp : child.geometry.points with _ | ps
  · refine ⟨rfl, rfl, rfl, rfl, rfl, rfl, Or.inl ⟨hp, hp⟩⟩
  · refine ⟨rfl, rfl, rfl, rfl, rfl, rfl, Or.inr ⟨ps, _, hp, rfl, ?_⟩⟩
    rw [List.length_map]

/-- The group-resize pass relates every entry to the original by skeleton
equality. -/
theorem scaleChildrenPass_skelOpt (og ng : Geometry) (sx sy : ℚ) (cs : List String)
    (m : ObjMap) (k : String) :
    SkelOpt (lookupObj m k) (lookupObj (scaleChildrenPass og ng sx sy cs m) k) := by
  unfold scaleChildrenPass
  have step : ∀ (P : ObjMap → Prop), P = (fun acc => SkelOpt (lookupObj m k) (lookupObj acc k)) →
      ∀ mm a, a ∈ cs → P mm → P ((fun acc childId =>
        match lookupObj acc childId with
        | none => acc
        | some child => insertObj acc childId (scaleChild og ng sx sy child)) mm a) := by
    intro P hP mm a _ hp
    subst hP
    rcases hla : lookupObj mm a with _ | child
    · simpa [hla] using hp
    · simp only [hla]
      by_cases hak : a = k
      · subst hak
        rw [lookupObj_insertObj_self]
        rcases hmk : lookupObj m a with _ | orig
        · rw [hmk, hla] at hp
          exact hp.elim
        · rw [hmk, hla] at hp
          exact skelEq_trans orig child (scaleChild og ng sx sy child) hp
            (scaleChild_skel og ng sx sy child)
      · rw [lookupObj_insertObj_ne _ _ _ _ hak]
        exact hp
  have base : ∀ o : Option CanvasObject, SkelOpt o o := by
    intro o
    cases o with
    | none => exact trivial
    | some v => exact skelEq_refl v
  exact foldl_preserve_prop _ (fun acc => SkelOpt (lookupObj m k) (lookupObj acc k)) cs
    (step _ rfl) m (base (lookupObj m k))

theorem updateScaled_skelOpt (obj newObj : CanvasObject) (u : ObjectUpdate) (m1 : ObjMap)
    (k : String) : SkelOpt (lookupObj m1 k) (lookupObj (updateScaled obj newObj u m1) k) := by
  unfold updateScaled
  split
  · exact scaleChildrenPass_skelOpt _ _ _ _ _ m1 k
  · cases ho : lookupObj m1 k with
    | none => exact trivial
    | some v => exact skelEq_refl v

theorem mem_insertObj (m : ObjMap) (k : String) (v : CanvasObject) :
    ∀ kv ∈ insertObj m k v, (kv.1 = k ∧ kv.2 = v) ∨ kv ∈ m := by
  induction m with
  | nil =>
    intro kv hkv
    rw [insertObj] at hkv
    rcases List.mem_singleton.mp hkv with rfl
    exact Or.inl ⟨rfl, rfl⟩
  | cons ev t ih =>
    rcases ev with ⟨ek, ev⟩
    intro kv hkv
    rw [insertObj] at hkv
    by_cases hk : ek = k
    · rw [if_pos hk] at hkv
      rcases List.mem_cons.mp hkv with rfl | hm
      · exact Or.inl ⟨hk, rfl⟩
      · exact Or.inr (List.mem_cons_of_mem _ hm)
    · rw [if_neg hk] at hkv
      rcases List.mem_cons.mp hkv with rfl | hm
      · exact Or.inr (List.mem_cons_self _ _)
      · rcases ih kv hm with h | h
        · exact Or.inl h
        · exact Or.inr (List.mem_cons_of_mem _ h)

theorem idsMatch_insertObj (m : ObjMap) (k : String) (v : CanvasObject)
    (hids : IdsMatch m) (hv : v.id = k) : IdsMatch (insertObj m k v) := by
  intro kv hkv
  rcases mem_insertObj m k v kv hkv with ⟨h1, h2⟩ | h
  · rw [h2, h1]
    exact hv
  · exact hids kv h

theorem nodup_keys_cons (ek : String) (ev : CanvasObject) (t : ObjMap)
    (hnd : (objKeys ((ek, ev) :: t)).Nodup) :
    ek ∉ objKeys t ∧ (objKeys t).Nodup := by
  rw [objKeys, List.map_cons] at hnd
  exact List.nodup_cons.mp hnd

theorem lookup_of_mem_nodup (m : ObjMap) (k : String) (v : CanvasObject)
    (hnd : (objKeys m).Nodup) (h : (k, v) ∈ m) : lookupObj m k = some v := by
  induction m with
  | nil => cases h
  | cons ev t ih =>
    rcases ev with ⟨ek, ev⟩
    rcases List.mem_cons.mp h with heq | hm
    · rw [Prod.mk.injEq] at heq
      rw [lookupObj, if_pos heq.1.symm, heq.2]
    · have hk : k ∈ objKeys t := List.mem_map_of_mem (fun kv => kv.1) hm
      have hek : ¬ ek = k := by
        intro hek
        subst hek
        exact (nodup_keys_cons ek ev t hnd).1 hk
      rw [lookupObj, if_neg hek]
      exact ih (nodup_keys_cons ek ev t hnd).2 hm

/-- Split a map at a present key (keys are unique). -/
theorem lookup_split (m : ObjMap) (k : String) (v : CanvasObject)
    (hnd : (objKeys m).Nodup) (h : lookupObj m k = some v) :
    ∃ mA mB, m = mA ++ (k, v) :: mB ∧ (∀ kv ∈ mA, kv.1 ≠ k) ∧ (∀ kv ∈ mB, kv.1 ≠ k) := by
  induction m with
  | nil => exact absurd h (by rw [lookupObj]; exact Option.noConfusion)
  | cons ev t ih =>
    rcases ev with ⟨ek, ev⟩
    have hnd' := nodup_keys_cons ek ev t hnd
    by_cases hek : ek = k
    · subst hek
      rw [lookupObj, if_pos rfl, Option.some.injEq] at h
      subst h
      refine ⟨[], t, rfl, ?_, ?_⟩
      · intro kv hkv
        cases hkv
      · intro kv hkv hk
        exact hnd'.1 (hk ▸ List.mem_map_of_mem (fun kv => kv.1) hkv)
    · rw [lookupObj, if_neg hek] at h
      rcases ih hnd'.2 h with ⟨mA, mB, hsplit, hA, hB⟩
      refine ⟨(ek, ev) :: mA, mB, by rw [hsplit]; rfl, ?_, hB⟩
      intro kv hkv
      rcases List.mem_cons.mp hkv with rfl | hm
      · exact hek
      · exact hA kv hm

theorem assignEntries_lookup_not_mem (m : ObjMap) (l : List (String × CanvasObject))
    (k : String) (h : ∀ kv ∈ l, kv.1 ≠ k) :
    lookupObj (assignEntries m l) k = lookupObj m k := by
  unfold assignEntries
  exact foldl_lookup_preserved _ l k
    (fun mm kv hkv => lookupObj_insertObj_ne _ _ _ _ (h kv hkv)) m

theorem assignEntries_lookup_unique (m : ObjMap) (l1 l2 : List (String × CanvasObject))
    (k : String) (w : CanvasObject)
    (h2 : ∀ kv ∈ l2, kv.1 ≠ k) :
    lookupObj (assignEntries m (l1 ++ (k, w) :: l2)) k = some w := by
  unfold assignEntries
  rw [List.foldl_append, List.foldl_cons]
  have hrest := foldl_lookup_preserved
    (fun acc kv => insertObj acc kv.1 kv.2) l2 k
    (fun mm kv hkv => lookupObj_insertObj_ne _ _ _ _ (h2 kv hkv))
  rw [hrest]
  exact lookupObj_insertObj_self _ _ _

/-- A successful connector-points update presupposes an arrow or line and
changes only the geometry. -/
theorem connectorPointsUpdate_some (modObj other o2 : CanvasObject)
    (h : connectorPointsUpdate modObj other = some o2) :
    (other.type = COT.arrow ∨ other.type = COT.line) ∧ o2.id = other.id ∧
    o2.type = other.type ∧ o2.parentId = other.parentId ∧ o2.children = other.children ∧
    o2.startConnection = other.startConnection ∧ o2.endConnection = other.endConnection := by
  unfold connectorPointsUpdate at h
  split at h
  · rename_i htype
    simp only [] at h
    split at h
    · rw [Option.some.injEq] at h
      subst h
      exact ⟨htype, rfl, rfl, rfl, rfl, rfl, rfl⟩
    · exact Option.noConfusion h
  · exact Option.noConfusion h

/-- In-range index assignment is `List.set`. -/
theorem jsSetPoint_in_range (l : List Point) (i : Nat) (v : Point) (h : i < l.length) :
    jsSetPoint l (i : Int) v = l.set i v := by
  unfold jsSetPoint
  rw [if_pos ⟨Int.ofNat_nonneg i, by exact_mod_cast h⟩]
  rw [Int.toNat_natCast]

theorem jsSetPoint_zero (l : List Point) (v : Point) (h : 0 < l.length) :
    jsSetPoint l 0 v = l.set 0 v := by
  unfold jsSetPoint
  rw [if_pos ⟨le_refl (0 : Int), by exact_mod_cast h⟩]
  rfl

/-- Evaluation of the connector-points update on a connector whose start is
bound to the modified object. -/
theorem connectorPointsUpdate_eval (modObj other : CanvasObject) (sc : Connection)
    (ps : List Point)
    (htype : other.type = COT.arrow ∨ other.type = COT.line)
    (hstart : other.startConnection = some sc) (hsc : sc.objectId = modObj.id)
    (hps : other.geometry.points = some ps) (hlen : 2 ≤ ps.length) :
    ∃ o2, connectorPointsUpdate modObj other = some o2 ∧
      ∃ qs, o2.geometry.points = some qs ∧
        qs[0]? = some (getAnchorPos modObj sc.anchorId) := by
  have hps0 : other.geometry.points.getD [] = ps := by
    rw [hps]
    rfl
  have hpos : 0 < ps.length := by omega
  unfold connectorPointsUpdate
  rw [if_pos htype, hps0, hstart]
  simp only []
  rw [if_pos hsc]
  rw [jsSetPoint_zero ps _ hpos]
  rcases hend : other.endConnection with _ | ec
  · simp only []
    rw [if_pos trivial]
    refine ⟨_, rfl, _, rfl, ?_⟩
    rw [List.getElem?_set_self hpos]
  · simp only []
    by_cases hcec : ec.objectId = modObj.id
    · rw [if_pos hcec]
      have hlenset : (ps.set 0 (getAnchorPos modObj sc.anchorId)).length = ps.length :=
        List.length_set ps 0 _
      have hcast : (((ps.set 0 (getAnchorPos modObj sc.anchorId)).length : Int) - 1) =
          (((ps.set 0 (getAnchorPos modObj sc.anchorId)).length - 1 : Nat) : Int) := by
        rw [hlenset]
        omega
      rw [hcast, jsSetPoint_in_range _ _ _ (by rw [hlenset]; omega)]
      simp only []
      rw [if_pos trivial]
      refine ⟨_, rfl, _, rfl, ?_⟩
      have hne0 : (ps.set 0 (getAnchorPos modObj sc.anchorId)).length - 1 ≠ 0 := by
        rw [hlenset]
        omega
      rw [List.getElem?_set_ne hne0, List.getElem?_set_self hpos]
    · rw [if_neg hcec]
      simp only []
      rw [if_pos trivial]
      refine ⟨_, rfl, _, rfl, ?_⟩
      rw [List.getElem?_set_self hpos]

/-- Evaluation of the connector-points update on a connector bound to the
modified object on at least one side: the start update writes index `0` and
the end update writes index `length - 1`. -/
theorem connectorPointsUpdate_eval2 (modObj other : CanvasObject) (ps : List Point)
    (htype : other.type = COT.arrow ∨ other.type = COT.line)
    (hps : other.geometry.points = some ps) (hlen : 2 ≤ ps.length)
    (hbound : (∃ sc, other.startConnection = some sc ∧ sc.objectId = modObj.id) ∨
      (∃ ec, other.endConnection = some ec ∧ ec.objectId = modObj.id)) :
    ∃ o2, connectorPointsUpdate modObj other = some o2 ∧
      ∃ qs, o2.geometry.points = some qs ∧ qs.length = ps.length ∧
        (∀ sc, other.startConnection = some sc → sc.objectId = modObj.id →
          qs[0]? = some (getAnchorPos modObj sc.anchorId)) ∧
        (∀ ec, other.endConnection = some ec → ec.objectId = modObj.id →
          qs[qs.length - 1]? = some (getAnchorPos modObj ec.anchorId)) := by
  have hps0 : other.geometry.points.getD [] = ps := by
    rw [hps]
    rfl
  have hpos : 0 < ps.length := by omega
  unfold connectorPointsUpdate
  rw [if_pos htype, hps0]
  rcases hstart : other.startConnection with _ | sc
  · simp only []
    rcases hend : other.endConnection with _ | ec
    · exfalso
      rcases hbound with ⟨sc, hsc, _⟩ | ⟨ec, hec, _⟩
      · rw [hstart] at hsc
        exact Option.noConfusion hsc
      · rw [hend] at hec
        exact Option.noConfusion hec
    · simp only []
      by_cases hcec : ec.objectId = modObj.id
      · rw [if_pos hcec]
        have hcast : ((ps.length : Int) - 1) = ((ps.length - 1 : Nat) : Int) := by omega
        rw [hcast, jsSetPoint_in_range _ _ _ (by omega)]
        simp only []
        rw [if_pos trivial]
        refine ⟨_, rfl, _, rfl, ?_, ?_, ?_⟩
        · rw [List.length_set]
        · intro sc2 hsc2 _
          exact Option.noConfusion hsc2
        · intro ec2 hec2 _
          rw [Option.some.injEq] at hec2
          subst hec2
          simp only [List.length_set]
          rw [List.getElem?_set_self (by omega)]
      · exfalso
        rcases hbound with ⟨sc2, hsc2, _⟩ | ⟨ec2, hec2, hid2⟩
        · rw [hstart] at hsc2
          exact Option.noConfusion hsc2
        · rw [hend, Option.some.injEq] at hec2
          subst hec2
          exact hcec hid2
  · simp only []
    by_cases hcsc : sc.objectId = modObj.id
    · rw [if_pos hcsc]
      rw [jsSetPoint_zero ps _ hpos]
      rcases hend : other.endConnection with _ | ec
      · simp only []
        rw [if_pos trivial]
        refine ⟨_, rfl, _, rfl, ?_, ?_, ?_⟩
        · rw [List.length_set]
        · intro sc2 hsc2 _
          rw [Option.some.injEq] at hsc2
          subst hsc2
          rw [List.getElem?_set_self hpos]
        · intro ec2 hec2 _
          exact Option.noConfusion hec2
      · simp only []
        by_cases hcec : ec.objectId = modObj.id
        · rw [if_pos hcec]
          have hlenset : (ps.set 0 (getAnchorPos modObj sc.anchorId)).length = ps.length :=
            List.length_set ps 0 _
          have hcast : (((ps.set 0 (getAnchorPos modObj sc.anchorId)).length : Int) - 1) =
              (((ps.set 0 (getAnchorPos modObj sc.anchorId)).length - 1 : Nat) : Int) := by
            rw [hlenset]
            omega
          rw [hcast, jsSetPoint_in_range _ _ _ (by rw [hlenset]; omega)]
          simp only []
          rw [if_pos trivial]
          refine ⟨_, rfl, _, rfl, ?_, ?_, ?_⟩
          · simp only [List.length_set]
          · intro sc2 hsc2 _
            rw [Option.some.injEq] at hsc2
            subst hsc2
            have hne0 : (ps.set 0 (getAnchorPos modObj sc.anchorId)).length - 1 ≠ 0 := by
              rw [hlenset]
              omega
            rw [List.getElem?_set_ne hne0, List.getElem?_set_self hpos]
          · intro ec2 hec2 _
            rw [Option.some.injEq] at hec2
            subst hec2
            simp only [List.length_set]
            rw [List.getElem?_set_self (by simp only [List.length_set]; omega)]
        · rw [if_neg hcec]
          simp only []
          rw [if_pos trivial]
          refine ⟨_, rfl, _, rfl, ?_, ?_, ?_⟩
          · simp only [List.length_set]
          · intro sc2 hsc2 _
            rw [Option.some.injEq] at hsc2
            subst hsc2
            rw [List.getElem?_set_self hpos]
          · intro ec2 hec2 hid2
            exfalso
            rw [Option.some.injEq] at hec2
            subst hec2
            exact hcec hid2
    · rw [if_neg hcsc]
      rcases hend : other.endConnection with _ | ec
      · exfalso
        rcases hbound with ⟨sc2, hsc2, hid2⟩ | ⟨ec2, hec2, _⟩
        · rw [hstart, Option.some.injEq] at hsc2
          subst hsc2
          exact hcsc hid2
        · rw [hend] at hec2
          exact Option.noConfusion hec2
      · simp only []
        by_cases hcec : ec.objectId = modObj.id
        · rw [if_pos hcec]
          have hcast : ((ps.length : Int) - 1) = ((ps.length - 1 : Nat) : Int) := by omega
          rw [hcast, jsSetPoint_in_range _ _ _ (by omega)]
          simp only []
          rw [if_pos trivial]
          refine ⟨_, rfl, _, rfl, ?_, ?_, ?_⟩
          · simp only [List.length_set]
          · intro sc2 hsc2 hid2
            exfalso
            rw [Option.some.injEq] at hsc2
            subst hsc2
            exact hcsc hid2
          · intro ec2 hec2 _
            rw [Option.some.injEq] at hec2
            subst hec2
            simp only [List.length_set]
            rw [List.getElem?_set_self (by omega)]
        · exfalso
          rcases hbound with ⟨sc2, hsc2, hid2⟩ | ⟨ec2, hec2, hid2⟩
          · rw [hstart, Option.some.injEq] at hsc2
            subst hsc2
            exact hcsc hid2
          · rw [hend, Option.some.injEq] at hec2
            subst hec2
            exact hcec hid2

/-! ## Key and id preservation through the updateObject stages -/

theorem objKeys_scaleChildrenPass (og ng : Geometry) (sx sy : ℚ) (cs : List String)
    (m : ObjMap) : objKeys (scaleChildrenPass og ng sx sy cs m) = objKeys m := by
  unfold scaleChildrenPass
  refine foldl_objKeys _ cs ?_ m
  intro mm a _
  rcases hla : lookupObj mm a with _ | child
  · simp [hla]
  · simp only [hla]
    exact objKeys_insertObj_mem mm a _ (mem_keys_of_lookupObj_eq_some mm a child hla)

theorem idsMatch_scaleChildrenPass (og ng : Geometry) (sx sy : ℚ) (cs : List String)
    (m : ObjMap) (hids : IdsMatch m) :
    IdsMatch (scaleChildrenPass og ng sx sy cs m) := by
  unfold scaleChildrenPass
  refine foldl_preserve_prop _ IdsMatch cs ?_ m hids
  intro mm a _ hp
  rcases hla : lookupObj mm a with _ | child
  · simpa [hla] using hp
  · simp only [hla]
    refine idsMatch_insertObj mm a _ hp ?_
    rw [(scaleChild_skel og ng sx sy child).1]
    exact hp (a, child) (mem_of_lookupObj_eq_some mm a child hla)

theorem objKeys_updateScaled (obj newObj : CanvasObject) (u : ObjectUpdate) (m1 : ObjMap) :
    objKeys (updateScaled obj newObj u m1) = objKeys m1 := by
  unfold updateScaled
  split
  · exact objKeys_scaleChildrenPass _ _ _ _ _ m1
  · rfl

theorem idsMatch_updateScaled (obj newObj : CanvasObject) (u : ObjectUpdate) (m1 : ObjMap)
    (hids : IdsMatch m1) : IdsMatch (updateScaled obj newObj u m1) := by
  unfold updateScaled
  split
  · exact idsMatch_scaleChildrenPass _ _ _ _ _ m1 hids
  · exact hids

/-- Characterisation of the entries produced by `getUpdatedConnections`. -/
theorem mem_getUpdatedConnections (newObj : CanvasObject) (m : ObjMap)
    (kv : String × CanvasObject) (h : kv ∈ getUpdatedConnections newObj m) :
    ∃ k0 v0, (k0, v0) ∈ m ∧ ∃ o, connectorPointsUpdate newObj v0 = some o ∧
      kv = (o.id, o) := by
  unfold getUpdatedConnections at h
  split at h
  · rcases List.mem_filterMap.mp h with ⟨⟨k0, v0⟩, hkv0, hg⟩
    rcases Option.map_eq_some'.mp hg with ⟨o, ho, hkveq⟩
    exact ⟨k0, v0, hkv0, o, ho, hkveq.symm⟩
  · cases h

theorem objKeys_assignConnections (newObj : CanvasObject) (m : ObjMap)
    (hids : IdsMatch m) :
    objKeys (assignEntries m (getUpdatedConnections newObj m)) = objKeys m := by
  unfold assignEntries
  refine foldl_preserve_prop _ (fun acc => objKeys acc = objKeys m) _ ?_ m rfl
  intro mm kv hkv hp
  rcases mem_getUpdatedConnections newObj m kv hkv with ⟨k0, v0, hkv0, o, ho, hkveq⟩
  subst hkveq
  have hid : o.id = k0 := by
    rw [(connectorPointsUpdate_some newObj v0 o ho).2.1]
    exact hids (k0, v0) hkv0
  have hmemk : ((o.id, o) : String × CanvasObject).1 ∈ objKeys mm := by
    rw [hp]
    show o.id ∈ objKeys m
    rw [hid]
    exact List.mem_map_of_mem (fun kv => kv.1) hkv0
  rw [objKeys_insertObj_mem mm _ _ hmemk, hp]

theorem idsMatch_assignConnections (newObj : CanvasObject) (m : ObjMap)
    (hids : IdsMatch m) :
    IdsMatch (assignEntries m (getUpdatedConnections newObj m)) := by
  unfold assignEntries
  refine foldl_preserve_prop _ IdsMatch _ ?_ m hids
  intro mm kv hkv hp
  rcases mem_getUpdatedConnections newObj m kv hkv with ⟨k0, v0, hkv0, o, ho, hkveq⟩
  subst hkveq
  exact idsMatch_insertObj mm _ _ hp rfl

/-- Connector re-anchoring leaves every non-connector entry unchanged. -/
theorem assign_connections_preserved_at (newObj : CanvasObject) (m : ObjMap) (k : String)
    (vk : CanvasObject) (hnd : (objKeys m).Nodup) (hids : IdsMatch m)
    (hvk : lookupObj m k = some vk)
    (hvtype : ¬ (vk.type = COT.arrow ∨ vk.type = COT.line)) :
    lookupObj (assignEntries m (getUpdatedConnections newObj m)) k = lookupObj m k := by
  apply assignEntries_lookup_not_mem
  intro kv hkv
  rcases mem_getUpdatedConnections newObj m kv hkv with ⟨k0, v0, hkv0, o, ho, hkveq⟩
  subst hkveq
  have hid : o.id = k0 := by
    rw [(connectorPointsUpdate_some newObj v0 o ho).2.1]
    exact hids (k0, v0) hkv0
  show o.id ≠ k
  rw [hid]
  intro hk0
  have hlk : lookupObj m k = some v0 := by
    rw [← hk0]
    exact lookup_of_mem_nodup m k0 v0 hnd hkv0
  rw [hvk, Option.some.injEq] at hlk
  refine hvtype ?_
  rw [hlk]
  exact (connectorPointsUpdate_some newObj v0 o ho).1

theorem filterMap_cons_eq {α β : Type} (f : α → Option β) (a : α) (l : List α) (b : β)
    (h : f a = some b) : List.filterMap f (a :: l) = b :: List.filterMap f l := by
  rw [List.filterMap_cons, h]

/-- Re-anchoring result at a bound connector's key: the connector is present
with its start point moved to the modified object's anchor. -/
theorem assign_connections_at_connector (newObj : CanvasObject) (m : ObjMap) (cid : String)
    (C : CanvasObject) (sc : Connection) (ps : List Point)
    (hnd : (objKeys m).Nodup) (hids : IdsMatch m)
    (harea : newObj.type = COT.rectangle ∨ newObj.type = COT.diamond ∨
      newObj.type = COT.ellipse ∨ newObj.type = COT.group)
    (hC : lookupObj m cid = some C)
    (htype : C.type = COT.arrow ∨ C.type = COT.line)
    (hstart : C.startConnection = some sc) (hsc : sc.objectId = newObj.id)
    (hps : C.geometry.points = some ps) (hlen : 2 ≤ ps.length) :
    ∃ o2, lookupObj (assignEntries m (getUpdatedConnections newObj m)) cid = some o2 ∧
      o2.startConnection = some sc ∧
      ∃ qs, o2.geometry.points = some qs ∧
        qs[0]? = some (getAnchorPos newObj sc.anchorId) := by
  obtain ⟨o2, ho2, qs, hqs, hq0⟩ :=
    connectorPointsUpdate_eval newObj C sc ps htype hstart hsc hps hlen
  have hid2 : o2.id = cid := by
    rw [(connectorPointsUpdate_some newObj C o2 ho2).2.1]
    exact hids (cid, C) (mem_of_lookupObj_eq_some m cid C hC)
  obtain ⟨mA, mB, hsplit, hA, hB⟩ := lookup_split m cid C hnd hC
  have hg : (fun kv => (connectorPointsUpdate newObj kv.2).map (fun o => (o.id, o)))
      ((cid, C) : String × CanvasObject) = some (cid, o2) := by
    show ((connectorPointsUpdate newObj C).map (fun o => (o.id, o))) = some (cid, o2)
    rw [ho2]
    show some (o2.id, o2) = some (cid, o2)
    rw [hid2]
  have hfm : getUpdatedConnections newObj m =
      mA.filterMap (fun kv => (connectorPointsUpdate newObj kv.2).map (fun o => (o.id, o))) ++
      ((cid, o2) :: mB.filterMap (fun kv =>
        (connectorPointsUpdate newObj kv.2).map (fun o => (o.id, o)))) := by
    unfold getUpdatedConnections
    rw [if_pos harea, hsplit, List.filterMap_append,
      filterMap_cons_eq (fun kv => (connectorPointsUpdate newObj kv.2).map (fun o => (o.id, o)))
        ((cid, C) : String × CanvasObject) mB (cid, o2) hg]
  rw [hfm]
  refine ⟨o2, ?_, ?_, ⟨qs, hqs, hq0⟩⟩
  · apply assignEntries_lookup_unique
    intro kv hkv
    rcases List.mem_filterMap.mp hkv with ⟨⟨k0, v0⟩, hkv0, hgm⟩
    rcases Option.map_eq_some'.mp hgm with ⟨o, ho, hkveq⟩
    have hoid : o.id = k0 := by
      rw [(connectorPointsUpdate_some newObj v0 o ho).2.1]
      refine hids (k0, v0) ?_
      rw [hsplit]
      exact List.mem_append_right _ (List.mem_cons_of_mem _ hkv0)
    rw [← hkveq]
    show o.id ≠ cid
    rw [hoid]
    exact hB (k0, v0) hkv0
  · rw [(connectorPointsUpdate_some newObj C o2 ho2).2.2.2.2.2.1]
    exact hstart

/-- Re-anchoring result at a bound connector's key, covering both endpoint
bindings: the connector survives with its bindings intact, its first point
tracks a bound start anchor and its last point tracks a bound end anchor. -/
theorem assign_connections_at_connector2 (newObj : CanvasObject) (m : ObjMap)
    (cid : String) (C : CanvasObject) (ps : List Point)
    (hnd : (objKeys m).Nodup) (hids : IdsMatch m)
    (harea : newObj.type = COT.rectangle ∨ newObj.type = COT.diamond ∨
      newObj.type = COT.ellipse ∨ newObj.type = COT.group)
    (hC : lookupObj m cid = some C)
    (htype : C.type = COT.arrow ∨ C.type = COT.line)
    (hps : C.geometry.points = some ps) (hlen : 2 ≤ ps.length)
    (hbound : (∃ sc, C.startConnection = some sc ∧ sc.objectId = newObj.id) ∨
      (∃ ec, C.endConnection = some ec ∧ ec.objectId = newObj.id)) :
    ∃ o2, lookupObj (assignEntries m (getUpdatedConnections newObj m)) cid = some o2 ∧
      o2.startConnection = C.startConnection ∧ o2.endConnection = C.endConnection ∧
      ∃ qs, o2.geometry.points = some qs ∧ qs.length = ps.length ∧
        (∀ sc, C.startConnection = some sc → sc.objectId = newObj.id →
          qs[0]? = some (getAnchorPos newObj sc.anchorId)) ∧
        (∀ ec, C.endConnection = some ec → ec.objectId = newObj.id →
          qs[qs.length - 1]? = some (getAnchorPos newObj ec.anchorId)) := by
  obtain ⟨o2, ho2, qs, hqs, hqlen, hstart2, hend2⟩ :=
    connectorPointsUpdate_eval2 newObj C ps htype hps hlen hbound
  have hid2 : o2.id = cid := by
    rw [(connectorPointsUpdate_some newObj C o2 ho2).2.1]
    exact hids (cid, C) (mem_of_lookupObj_eq_some m cid C hC)
  obtain ⟨mA, mB, hsplit, hA, hB⟩ := lookup_split m cid C hnd hC
  have hg : (fun kv => (connectorPointsUpdate newObj kv.2).map (fun o => (o.id, o)))
      ((cid, C) : String × CanvasObject) = some (cid, o2) := by
    show ((connectorPointsUpdate newObj C).map (fun o => (o.id, o))) = some (cid, o2)
    rw [ho2]
    show some (o2.id, o2) = some (cid, o2)
    rw [hid2]
  have hfm : getUpdatedConnections newObj m =
      mA.filterMap (fun kv => (connectorPointsUpdate newObj kv.2).map (fun o => (o.id, o))) ++
      ((cid, o2) :: mB.filterMap (fun kv =>
        (connectorPointsUpdate newObj kv.2).map (fun o => (o.id, o)))) := by
    unfold getUpdatedConnections
    rw [if_pos harea, hsplit, List.filterMap_append,
      filterMap_cons_eq (fun kv => (connectorPointsUpdate newObj kv.2).map (fun o => (o.id, o)))
        ((cid, C) : String × CanvasObject) mB (cid, o2) hg]
  rw [hfm]
  refine ⟨o2, ?_, ?_, ?_, ⟨qs, hqs, hqlen, hstart2, hend2⟩⟩
  · apply assignEntries_lookup_unique
    intro kv hkv
    rcases List.mem_filterMap.mp hkv with ⟨⟨k0, v0⟩, hkv0, hgm⟩
    rcases Option.map_eq_some'.mp hgm with ⟨o, ho, hkveq⟩
    have hoid : o.id = k0 := by
      rw [(connectorPointsUpdate_some newObj v0 o ho).2.1]
      refine hids (k0, v0) ?_
      rw [hsplit]
      exact List.mem_append_right _ (List.mem_cons_of_mem _ hkv0)
    rw [← hkveq]
    show o.id ≠ cid
    rw [hoid]
    exact hB (k0, v0) hkv0
  · exact (connectorPointsUpdate_some newObj C o2 ho2).2.2.2.2.2.1
  · exact (connectorPointsUpdate_some newObj C o2 ho2).2.2.2.2.2.2

/-- The membership step skips non-connectors. -/
theorem updateMembership_skip (u : ObjectUpdate) (m3 : ObjMap) (id : String)
    (cur : CanvasObject) (h : ¬ (cur.type = COT.arrow ∨ cur.type = COT.line)) :
    updateMembership u m3 id cur = (m3, cur) := by
  unfold updateMembership
  rw [if_neg (fun hc => h hc.1)]

/-- The final bounds pass touches at most the parent's own key. -/
theorem parentBoundsPass_lookup_ne (m : ObjMap) (cur : CanvasObject) (k : String)
    (hids : IdsMatch m) (hk : cur.parentId ≠ some k) :
    lookupObj (parentBoundsPass m cur) k = lookupObj m k := by
  unfold parentBoundsPass
  rcases hpar : cur.parentId with _ | pid
  · rfl
  · rcases hp : lookupObj m pid with _ | parent
    · simp [hp]
    · rcases hcs : parent.children with _ | cs
      · simp [hp, hcs]
      · rcases hb : calculateGroupBounds m cs with _ | bnds
        · simp [hp, hcs, hb]
        · have hpid : parent.id = pid :=
            hids (pid, parent) (mem_of_lookupObj_eq_some m pid parent hp)
          simp only [hp, hcs, hb]
          apply lookupObj_insertObj_ne
          rw [hpid]
          intro hpk
          refine hk ?_
          rw [hpar, hpk]

theorem skelOpt_some_left (v : CanvasObject) (o : Option CanvasObject)
    (h : SkelOpt (some v) o) : ∃ w, o = some w ∧ SkelEq v w := by
  cases o with
  | none => exact h.elim
  | some w => exact ⟨w, rfl, h⟩

/-- Reduction of `updateObject` at a present key to its staged pipeline. -/
theorem updateObject_objects_eq (s : WhiteboardState) (id : String) (u : ObjectUpdate)
    (b : Bool) (obj : CanvasObject) (h : lookupObj s.objects id = some obj) :
    (updateObject s id u b).objects =
      (let newObj := applyUpdate obj u
       let m1 := insertObj s.objects id newObj
       let m2 := updateScaled obj newObj u m1
       let m3 := assignEntries m2 (getUpdatedConnections newObj m2)
       let currentObj := (lookupObj m3 id).getD newObj
       let stepped := updateMembership u m3 id currentObj
       parentBoundsPass stepped.1 stepped.2) := by
  unfold updateObject
  rw [h]

/-! ## Order-independence and locality of calculateGroupBounds -/

theorem accPoint_eq_mergeBox (acc : Option (ℚ × ℚ × ℚ × ℚ)) (p : Point) :
    accPoint acc p = mergeBox acc (p.x, p.y, p.x, p.y) := by
  rcases acc with _ | ⟨a, b, c, d⟩ <;> rfl

theorem accRect_eq_mergeBox (acc : Option (ℚ × ℚ × ℚ × ℚ)) (x y w h : ℚ) :
    accRect acc x y w h = mergeBox acc (x, y, rAdd x w, rAdd y h) := by
  rcases acc with _ | ⟨a, b, c, d⟩ <;> rfl

theorem mergeBox_right_comm (acc : Option (ℚ × ℚ × ℚ × ℚ)) (b1 b2 : ℚ × ℚ × ℚ × ℚ) :
    mergeBox (mergeBox acc b1) b2 = mergeBox (mergeBox acc b2) b1 := by
  rcases b1 with ⟨x1, y1, z1, w1⟩
  rcases b2 with ⟨x2, y2, z2, w2⟩
  rcases acc with _ | ⟨a, b, c, d⟩
  · simp only [mergeBox]
    rw [min_comm x1 x2, min_comm y1 y2, max_comm z1 z2, max_comm w1 w2]
  · simp only [mergeBox]
    rw [min_right_comm a x1 x2, min_right_comm b y1 y2, sup_right_comm c z1 z2,
      sup_right_comm d w1 w2]

theorem foldl_mergeBox_swap (L : List (ℚ × ℚ × ℚ × ℚ)) :
    ∀ acc b, L.foldl mergeBox (mergeBox acc b) = mergeBox (L.foldl mergeBox acc) b := by
  induction L with
  | nil =>
    intro acc b
    rfl
  | cons c t ih =>
    intro acc b
    rw [List.foldl_cons, List.foldl_cons, mergeBox_right_comm acc b c, ih]

theorem foldl_mergeBox_comm (L1 L2 : List (ℚ × ℚ × ℚ × ℚ)) :
    ∀ acc, L1.foldl mergeBox (L2.foldl mergeBox acc) =
      L2.foldl mergeBox (L1.foldl mergeBox acc) := by
  induction L1 with
  | nil =>
    intro acc
    rfl
  | cons b t ih =>
    intro acc
    rw [List.foldl_cons, List.foldl_cons, ← foldl_mergeBox_swap L2 acc b, ih]

theorem foldl_accPoint_eq (ps : List Point) :
    ∀ acc, ps.foldl accPoint acc =
      (ps.map (fun p => (p.x, p.y, p.x, p.y))).foldl mergeBox acc := by
  induction ps with
  | nil =>
    intro acc
    rfl
  | cons p t ih =>
    intro acc
    rw [List.map_cons, List.foldl_cons, List.foldl_cons, accPoint_eq_mergeBox, ih]

/-- The per-child bounds accumulation is right-commutative: visiting two
children in either order yields the same state. -/
theorem boundsStep_rcomm (m : ObjMap) (st : Option (ℚ × ℚ × ℚ × ℚ) × Bool) (x y : String) :
    boundsStep m (boundsStep m st x) y = boundsStep m (boundsStep m st y) x := by
  unfold boundsStep
  rcases hx : lookupObj m x with _ | cx <;> rcases hy : lookupObj m y with _ | cy <;>
    simp only [hx, hy]
  rcases hpx : cx.geometry.points with _ | psx <;>
    rcases hpy : cy.geometry.points with _ | psy <;>
      simp only [hpx, hpy, foldl_accPoint_eq, accRect_eq_mergeBox]
  · rw [mergeBox_right_comm]
  · rw [foldl_mergeBox_swap]
  · rw [foldl_mergeBox_swap]
  · rw [foldl_mergeBox_comm]

/-- `calculateGroupBounds` is independent of the order of the children
list. -/
theorem calculateGroupBounds_perm (m : ObjMap) (cs cs2 : List String)
    (hp : cs.Perm cs2) :
    calculateGroupBounds m cs2 = calculateGroupBounds m cs := by
  have h := List.Perm.foldl_eq' hp
    (fun x _ y _ st => boundsStep_rcomm m st x y)
    ((none, false) : Option (ℚ × ℚ × ℚ × ℚ) × Bool)
  unfold calculateGroupBounds
  rw [← h]

theorem boundsFold_congr (m m2 : ObjMap) (cs : List String)
    (h : ∀ c ∈ cs, lookupObj m2 c = lookupObj m c) :
    ∀ st, cs.foldl (boundsStep m2) st = cs.foldl (boundsStep m) st := by
  induction cs with
  | nil =>
    intro st
    rfl
  | cons c t ih =>
    intro st
    rw [List.foldl_cons, List.foldl_cons]
    have hstep : boundsStep m2 st c = boundsStep m st c := by
      unfold boundsStep
      rw [h c (List.mem_cons_self c t)]
    rw [hstep]
    exact ih (fun x hx => h x (List.mem_cons_of_mem c hx)) _

/-- `calculateGroupBounds` only reads the entries of the listed children. -/
theorem calculateGroupBounds_congr (m m2 : ObjMap) (cs : List String)
    (h : ∀ c ∈ cs, lookupObj m2 c = lookupObj m c) :
    calculateGroupBounds m2 cs = calculateGroupBounds m cs := by
  unfold calculateGroupBounds
  rw [boundsFold_congr m m2 cs h]

/-- When the modified object's type is shared with the entry at `k`, that
entry survives the connector re-anchoring pass unchanged. -/
theorem assign_connections_lookup_same (newObj : CanvasObject) (m : ObjMap)
    (k : String) (vk : CanvasObject) (hnd : (objKeys m).Nodup) (hids : IdsMatch m)
    (hvk : lookupObj m k = some vk) (hty : vk.type = newObj.type) :
    lookupObj (assignEntries m (getUpdatedConnections newObj m)) k = some vk := by
  by_cases harea : newObj.type = COT.rectangle ∨ newObj.type = COT.diamond ∨
      newObj.type = COT.ellipse ∨ newObj.type = COT.group
  · have hvc : ¬ (vk.type = COT.arrow ∨ vk.type = COT.line) := by
      rw [hty]
      rcases harea with h | h | h | h <;> rw [h] <;> intro hc <;>
        rcases hc with hc | hc <;> exact COT.noConfusion hc
    rw [assign_connections_preserved_at newObj m k vk hnd hids hvk hvc]
    exact hvk
  · have hemp : getUpdatedConnections newObj m = [] := by
      unfold getUpdatedConnections
      rw [if_neg harea]
    rw [hemp]
    exact hvk

/-- The membership step is skipped whenever the partial update touches neither
connection field. -/
theorem updateMembership_skip_conn (u : ObjectUpdate) (m3 : ObjMap) (id : String)
    (cur : CanvasObject) (h1 : jsDefined u.startConnection = false)
    (h2 : jsDefined u.endConnection = false) :
    updateMembership u m3 id cur = (m3, cur) := by
  unfold updateMembership
  split
  · rename_i hcond
    rcases hcond.2 with hx | hx
    · rw [h1] at hx
      exact Bool.noConfusion hx
    · rw [h2] at hx
      exact Bool.noConfusion hx
  · rfl

/-! ## Cascade deletion: erase fold, eviction invariant, coherence -/

theorem foldl_preserve_prop2 {α β : Type} (f : β → α → β) (P : β → Prop)
    (l : List α) (h : ∀ st a, a ∈ l → P st → P (f st a)) :
    ∀ st, P st → P (l.foldl f st) := by
  induction l with
  | nil =>
    intro st hst
    exact hst
  | cons a t ih =>
    intro st hst
    exact ih (fun st2 b hb => h st2 b (List.mem_cons_of_mem a hb)) (f st a)
      (h st a (List.mem_cons_self a t) hst)

theorem foldl_erase_lookup (l : List String) : ∀ (m : ObjMap) (x : String),
    lookupObj (l.foldl eraseObj m) x = if x ∈ l then none else lookupObj m x := by
  induction l with
  | nil =>
    intro m x
    rw [if_neg (List.not_mem_nil x)]
    rfl
  | cons a t ih =>
    intro m x
    rw [List.foldl_cons, ih]
    by_cases hx : x ∈ t
    · rw [if_pos hx, if_pos (List.mem_cons_of_mem a hx)]
    · rw [if_neg hx]
      by_cases hax : a = x
      · rw [← hax, lookupObj_eraseObj_self, if_pos (List.mem_cons_self a t)]
      · have hnm : x ∉ a :: t := by
          intro hm
          rcases List.mem_cons.mp hm with h | h
          · exact hax h.symm
          · exact hx h
        rw [lookupObj_eraseObj_ne m a x hax, if_neg hnm]

/-- After erasing the recursive closure, parent coherence survives: a deleted
parent would have dragged its children into the closure. -/
theorem erase_closure_coherent (m : ObjMap) (ids : List String)
    (hco : ParentCoherent m) :
    ParentCoherent ((getRecursiveChildrenIds m ids).foldl eraseObj m) := by
  intro x X p hx hp
  rw [foldl_erase_lookup] at hx
  by_cases hxm : x ∈ getRecursiveChildrenIds m ids
  · rw [if_pos hxm] at hx
    exact Option.noConfusion hx
  · rw [if_neg hxm] at hx
    obtain ⟨P, hP, hmem⟩ := hco x X p hx hp
    have hpm : p ∉ getRecursiveChildrenIds m ids := by
      intro hpm
      rcases hch : P.children with _ | cs
      · rw [hch] at hmem
        exact absurd hmem (List.not_mem_nil x)
      · rw [hch] at hmem
        exact hxm (getRecursiveChildrenIds_closed m ids p hpm P cs hP hch x hmem)
    refine ⟨P, ?_, hmem⟩
    rw [foldl_erase_lookup, if_neg hpm]
    exact hP

theorem evictInv_insert (m : ObjMap) (cs0 ag : List String) (st : ObjMap × List String)
    (aid : String) (haid : aid ∈ ag) (arrow : CanvasObject)
    (ha : lookupObj st.1 aid = some arrow)
    (h : EvictInv m cs0 ag st) :
    EvictInv m cs0 ag
      (insertObj st.1 aid { arrow with parentId := none },
       st.2.filter (fun cid => cid ≠ aid)) := by
  obtain ⟨h1, h2, h3⟩ := h
  have hself : ∃ a0, lookupObj m aid = some a0 ∧
      lookupObj (insertObj st.1 aid { arrow with parentId := none }) aid =
        some { a0 with parentId := none } := by
    rcases h1 aid with he | ⟨a0, ha0, hb0⟩
    · refine ⟨arrow, ?_, lookupObj_insertObj_self st.1 aid _⟩
      rw [← he]
      exact ha
    · refine ⟨a0, ha0, ?_⟩
      rw [ha, Option.some.injEq] at hb0
      rw [lookupObj_insertObj_self st.1 aid _, hb0]
  refine ⟨?_, ?_, ?_⟩
  · intro x
    simp only []
    by_cases hx : x = aid
    · rw [hx]
      obtain ⟨a0, ha0, hb0⟩ := hself
      exact Or.inr ⟨a0, ha0, hb0⟩
    · rw [lookupObj_insertObj_ne st.1 aid x _ (fun hh => hx hh.symm)]
      exact h1 x
  · intro x hx0
    simp only []
    by_cases hx : x = aid
    · rw [hx]
      obtain ⟨a0, ha0, hb0⟩ := hself
      exact Or.inr ⟨hx ▸ haid, a0, ha0, hb0⟩
    · rcases h2 x hx0 with hl | ⟨hag2, a0, ha0, hb0⟩
      · refine Or.inl ?_
        rw [List.mem_filter]
        exact ⟨hl, decide_eq_true hx⟩
      · refine Or.inr ⟨hag2, a0, ha0, ?_⟩
        rw [lookupObj_insertObj_ne st.1 aid x _ (fun hh => hx hh.symm)]
        exact hb0
  · intro x hx
    simp only [] at hx
    rw [List.mem_filter] at hx
    exact h3 x hx.1

theorem evictStep_inv (m : ObjMap) (gid : String) (cs0 ag : List String) (aid : String)
    (haid : aid ∈ ag) (st : ObjMap × List String) (h : EvictInv m cs0 ag st) :
    EvictInv m cs0 ag (evictStep gid st aid) := by
  unfold evictStep
  rcases ha : lookupObj st.1 aid with _ | arrow
  · exact h
  · simp only []
    split
    · exact evictInv_insert m cs0 ag st aid haid arrow ha h
    · exact h

theorem evictFold_inv (m : ObjMap) (gid : String) (cs0 ag : List String) :
    EvictInv m cs0 ag (ag.foldl (evictStep gid) (m, cs0)) := by
  refine foldl_preserve_prop2 (evictStep gid) (EvictInv m cs0 ag) ag
    (fun st a ha hs => evictStep_inv m gid cs0 ag a ha st hs) (m, cs0) ?_
  exact ⟨fun x => Or.inl rfl, fun x hx => Or.inl hx, fun x hx => hx⟩

theorem cleanupGroupRun_preserves_none (m : ObjMap) (k x : String)
    (obj : CanvasObject) (hk : lookupObj m k = some obj)
    (h : lookupObj m x = none) : lookupObj (cleanupGroupRun m k obj) x = none := by
  unfold cleanupGroupRun
  simp only []
  obtain ⟨hI1, _, _⟩ := evictFold_inv m k
    ((obj.children.getD []).filter (fun cid => (lookupObj m cid).isSome))
    (((obj.children.getD []).filter (fun cid => (lookupObj m cid).isSome)).filter
      (fun cid =>
        match lookupObj m cid with
        | some o => o.type = COT.arrow ∨ o.type = COT.line
        | none => false))
  have hFx : lookupObj (((((obj.children.getD []).filter
      (fun cid => (lookupObj m cid).isSome)).filter
      (fun cid =>
        match lookupObj m cid with
        | some o => o.type = COT.arrow ∨ o.type = COT.line
        | none => false)).foldl (evictStep k)
      (m, (obj.children.getD []).filter (fun cid => (lookupObj m cid).isSome))).1) x =
      none := by
    rcases hI1 x with he | ⟨a0, ha0, _⟩
    · rw [he]
      exact h
    · rw [h] at ha0
      exact Option.noConfusion ha0
  have hkx : ¬ k = x := by
    intro hh
    rw [hh, h] at hk
    exact Option.noConfusion hk
  split
  · rw [lookupObj_eraseObj_ne _ k x hkx]
    exact hFx
  · split
    · rw [lookupObj_insertObj_ne _ k x _ hkx]
      exact hFx
    · rw [lookupObj_insertObj_ne _ k x _ hkx]
      exact hFx

theorem cleanupGroupStep_preserves_none (m : ObjMap) (k x : String)
    (h : lookupObj m x = none) : lookupObj (cleanupGroupStep m k) x = none := by
  unfold cleanupGroupStep
  rcases hk : lookupObj m k with _ | obj
  · exact h
  · simp only []
    split
    · exact cleanupGroupRun_preserves_none m k x obj hk h
    · exact h

/-- The cleanup body for a group entry preserves parent coherence. -/
theorem cleanupGroupRun_coherent (m : ObjMap) (k : String) (obj : CanvasObject)
    (hk : lookupObj m k = some obj) (hgrp : obj.type = COT.group)
    (hco : ParentCoherent m) : ParentCoherent (cleanupGroupRun m k obj) := by
  unfold cleanupGroupRun
  simp only []
  set cs0 := (obj.children.getD []).filter (fun cid => (lookupObj m cid).isSome) with hcs0
  set ag := cs0.filter (fun cid =>
    match lookupObj m cid with
    | some o => o.type = COT.arrow ∨ o.type = COT.line
    | none => false) with hag
  set F := ag.foldl (evictStep k) (m, cs0) with hFdef
  obtain ⟨hI1, hI2, hI3⟩ := evictFold_inv m k cs0 ag
  rw [← hFdef] at hI1 hI2 hI3
  have hval : ∀ x X p, lookupObj F.1 x = some X → X.parentId = some p →
      lookupObj m x = some X := by
    intro x X p hx hp
    rcases hI1 x with he | ⟨a0, ha0, hb0⟩
    · rw [← he]
      exact hx
    · rw [hx, Option.some.injEq] at hb0
      rw [hb0] at hp
      exact Option.noConfusion hp
  have hFp : ∀ p P, lookupObj m p = some P →
      ∃ P2, lookupObj F.1 p = some P2 ∧ P2.children = P.children := by
    intro p P hp
    rcases hI1 p with he | ⟨a0, ha0, hb0⟩
    · refine ⟨P, ?_, rfl⟩
      rw [he]
      exact hp
    · refine ⟨{ a0 with parentId := none }, hb0, ?_⟩
      rw [hp, Option.some.injEq] at ha0
      rw [ha0]
  have hrefk : ∀ x X, lookupObj F.1 x = some X → X.parentId = some k → x ∈ F.2 := by
    intro x X hx hp
    have hmx : lookupObj m x = some X := hval x X k hx hp
    obtain ⟨P, hP, hmem⟩ := hco x X k hmx hp
    rw [hk, Option.some.injEq] at hP
    subst hP
    have hx0 : x ∈ cs0 := by
      rw [hcs0, List.mem_filter]
      refine ⟨hmem, ?_⟩
      rw [hmx]
      rfl
    rcases hI2 x hx0 with h | ⟨_, a0, ha0, hb0⟩
    · exact h
    · exfalso
      rw [hx, Option.some.injEq] at hb0
      rw [hb0] at hp
      exact Option.noConfusion hp
  split
  · rename_i hlen
    have hnil : F.2 = [] := List.length_eq_zero.mp hlen
    intro x X p hx hp
    have hxk : ¬ k = x := by
      intro hh
      rw [← hh, lookupObj_eraseObj_self] at hx
      exact Option.noConfusion hx
    rw [lookupObj_eraseObj_ne F.1 k x hxk] at hx
    have hpk : p ≠ k := by
      intro hh
      have hin := hrefk x X hx (hh ▸ hp)
      rw [hnil] at hin
      exact absurd hin (List.not_mem_nil x)
    have hmx := hval x X p hx hp
    obtain ⟨P, hP, hmem⟩ := hco x X p hmx hp
    obtain ⟨P2, hP2, hch⟩ := hFp p P hP
    refine ⟨P2, ?_, ?_⟩
    · rw [lookupObj_eraseObj_ne F.1 k p (fun hh => hpk hh.symm)]
      exact hP2
    · rw [hch]
      exact hmem
  · have hcase : ∀ g : Geometry,
        ParentCoherent (insertObj F.1 k { obj with children := some F.2, geometry := g }) := by
      intro g
      intro x X p hx hp
      by_cases hxk : x = k
      · rw [hxk] at hx ⊢
        rw [lookupObj_insertObj_self, Option.some.injEq] at hx
        subst hx
        have hop : obj.parentId = some p := hp
        obtain ⟨P, hP, hmem⟩ := hco k obj p hk hop
        by_cases hpk : p = k
        · rw [hpk] at hP ⊢
          rw [hk, Option.some.injEq] at hP
          subst hP
          refine ⟨{ obj with children := some F.2, geometry := g },
            lookupObj_insertObj_self F.1 k _, ?_⟩
          show k ∈ F.2
          have hk0 : k ∈ cs0 := by
            rw [hcs0, List.mem_filter]
            refine ⟨hmem, ?_⟩
            rw [hk]
            rfl
          rcases hI2 k hk0 with h | ⟨hkag, a0, ha0, hb0⟩
          · exact h
          · exfalso
            rw [hag, List.mem_filter] at hkag
            have hkag2 := hkag.2
            simp only [hk, hgrp] at hkag2
            exact absurd hkag2 (by decide)
        · obtain ⟨P2, hP2, hch⟩ := hFp p P hP
          refine ⟨P2, ?_, ?_⟩
          · rw [lookupObj_insertObj_ne F.1 k p _ (fun hh => hpk hh.symm)]
            exact hP2
          · rw [hch]
            exact hmem
      · rw [lookupObj_insertObj_ne F.1 k x _ (fun hh => hxk hh.symm)] at hx
        have hmx := hval x X p hx hp
        obtain ⟨P, hP, hmem⟩ := hco x X p hmx hp
        by_cases hpk : p = k
        · rw [hpk]
          refine ⟨{ obj with children := some F.2, geometry := g },
            lookupObj_insertObj_self F.1 k _, ?_⟩
          show x ∈ F.2
          refine hrefk x X hx ?_
          rw [← hpk]
          exact hp
        · obtain ⟨P2, hP2, hch⟩ := hFp p P hP
          refine ⟨P2, ?_, ?_⟩
          · rw [lookupObj_insertObj_ne F.1 k p _ (fun hh => hpk hh.symm)]
            exact hP2
          · rw [hch]
            exact hmem
    split
    · exact hcase _
    · exact hcase _

theorem cleanupGroupStep_coherent (m : ObjMap) (k : String)
    (hco : ParentCoherent m) : ParentCoherent (cleanupGroupStep m k) := by
  unfold cleanupGroupStep
  rcases hk : lookupObj m k with _ | obj
  · exact hco
  · simp only []
    split
    · rename_i hgrp
      exact cleanupGroupRun_coherent m k obj hk hgrp.1 hco
    · exact hco

theorem cleanup_fold_none (l : List String) (m : ObjMap) (x : String)
    (h : lookupObj m x = none) : lookupObj (l.foldl cleanupGroupStep m) x = none :=
  foldl_preserve_prop cleanupGroupStep (fun mm => lookupObj mm x = none) l
    (fun mm a _ hm => cleanupGroupStep_preserves_none mm a x hm) m h

theorem cleanup_fold_coherent (l : List String) (m : ObjMap)
    (h : ParentCoherent m) : ParentCoherent (l.foldl cleanupGroupStep m) :=
  foldl_preserve_prop cleanupGroupStep ParentCoherent l
    (fun mm a _ hm => cleanupGroupStep_coherent mm a hm) m h

/-- Bridge from the executable per-entry check to parent coherence. -/
theorem parentCoherent_of_ok (m : ObjMap)
    (h : ∀ kv ∈ m, parentOk m kv = true) : ParentCoherent m := by
  intro x X p hx hp
  have h0 := h (x, X) (mem_of_lookupObj_eq_some m x X hx)
  unfold parentOk at h0
  simp only [hp] at h0
  rcases hP : lookupObj m p with _ | P
  · simp only [hP] at h0
    exact Bool.noConfusion h0
  · simp only [hP] at h0
    refine ⟨P, rfl, ?_⟩
    exact (pd_contains_iff _ _).mp h0

/-! ## Lemmas about removeFromOldParent and reparenting -/

/-- The old-parent cleanup touches only the old parent's key, which its guard
forces to differ from the new parent id; every other lookup is preserved. -/
theorem removeFromOldParent_lookup_preserved (mm : ObjMap) (cid : String)
    (np : Option String) (k : String)
    (hk : np = some k ∨ ∀ obj, lookupObj mm cid = some obj → obj.parentId ≠ some k) :
    lookupObj (removeFromOldParent mm cid np) k = lookupObj mm k := by
  have hpid : ∀ pid obj, lookupObj mm cid = some obj → obj.parentId = some pid →
      ¬ (some pid = np) → pid ≠ k := by
    intro pid obj hobj hp hnp
    rcases hk with h | h
    · intro hpk
      exact hnp (by rw [hpk, h])
    · intro hpk
      exact h obj hobj (by rw [hp, hpk])
  unfold removeFromOldParent
  split
  · rfl
  · rename_i obj hobj
    split
    · rfl
    · rename_i pid hparent
      split
      · rfl
      · split
        · rfl
        · rename_i hlook hnp
          have hne : pid ≠ k := hpid pid obj hobj hparent hnp
          split
          · rfl
          · rename_i oldParent hold
            split
            · rfl
            · rename_i cs hcs
              simp only []
              split
              · split
                · rw [lookupObj_insertObj_ne _ _ _ _ hne,
                    lookupObj_insertObj_ne _ _ _ _ hne]
                · rw [lookupObj_insertObj_ne _ _ _ _ hne]
              · rw [lookupObj_eraseObj_ne _ _ _ hne,
                  lookupObj_insertObj_ne _ _ _ _ hne]

/-- Reparenting some other id to `g` never touches the entry at `g`. -/
theorem reparentStep_lookup_of_ne (g : String) (mm : ObjMap) (a : String) (ha : a ≠ g) :
    lookupObj (reparentStep g mm a) g = lookupObj mm g := by
  unfold reparentStep
  have h1 := removeFromOldParent_lookup_preserved mm a (some g) g (Or.inl rfl)
  simp only []
  split
  · rename_i v hv
    rw [lookupObj_insertObj_ne _ _ _ _ ha, h1]
  · exact h1

end PD

namespace PD

/-- C3: for every starting state and every sequence of history-recording
mutations (each pushes the pre-mutation map onto `past` and clears `future`),
undoing N times and then redoing N times restores the post-sequence state (in
particular its object map); `undo` on an empty `past` leaves the state
unchanged; and `redo` directly after a history-recording mutation leaves the
state unchanged, since the mutation cleared `future`. -/
theorem C3_undo_redo_round_trip :
    (∀ (s : WhiteboardState) (steps : List (WhiteboardState → WhiteboardState)),
      (∀ f ∈ steps, RecordsHistory f) →
      iterOp redo steps.length (iterOp undo steps.length (applySteps steps s)) =
        applySteps steps s) ∧
    (∀ s : WhiteboardState, s.past = [] → undo s = s) ∧
    (∀ (s : WhiteboardState) (f : WhiteboardState → WhiteboardState),
      RecordsHistory f → redo (f s) = f s) := by
  refine ⟨?_, ?_, ?_⟩
  · intro s steps h
    apply undo_redo_roundtrip
    rw [applySteps_past_length steps h s]
    omega
  · intro s h
    unfold undo
    rw [h]
    rfl
  · intro s f h
    unfold redo
    rw [(h s).2]

theorem hist_steps_record : ∀ f ∈ [histStep1, histStep2], RecordsHistory f := by
  intro f hf
  have h1 : RecordsHistory histStep1 := fun s => ⟨rfl, rfl⟩
  have h2 : RecordsHistory histStep2 := fun s => ⟨rfl, rfl⟩
  simp only [List.mem_cons, List.not_mem_nil, or_false] at hf
  rcases hf with rfl | rfl
  · exact h1
  · exact h2

/-- Witness for C3: two concrete history-recording mutations (adding a
rectangle and cascade-deleting it) starting from the empty state. -/
theorem C3_witness :
    (∀ f ∈ [histStep1, histStep2], RecordsHistory f) ∧
    iterOp redo 2 (iterOp undo 2 (applySteps [histStep1, histStep2] emptyState)) =
      applySteps [histStep1, histStep2] emptyState :=
  ⟨hist_steps_record,
    C3_undo_redo_round_trip.1 emptyState [histStep1, histStep2] hist_steps_record⟩

/-- C8: updating an id that is absent from the object map leaves the whole
state (object map, past stack, future stack, UI fields, frame) unchanged; the
embedded operation is total, matching the store's no-throw policy. -/
theorem C8_unknown_id_noop (s : WhiteboardState) (id : String) (u : ObjectUpdate)
    (b : Bool) (h : lookupObj s.objects id = none) :
    updateObject s id u b = s := by
  unfold updateObject
  rw [h]

/-- Witness for C8: an update against the empty object map. -/
theorem C8_witness :
    lookupObj emptyState.objects missingId = none ∧
    updateObject emptyState missingId emptyUpdate true = emptyState :=
  ⟨rfl, C8_unknown_id_noop emptyState missingId emptyUpdate true rfl⟩

/-- C10: the frame counter starts at 0 and stays nonnegative under every
sequence of frame operations: `setFrame` clamps with `max 0`, `nextFrame`
increments, `prevFrame` decrements with a `max 0` clamp. -/
theorem C10_frame_nonnegative :
    initialFrame = 0 ∧
    ∀ (s : WhiteboardState) (ops : List FrameOp), 0 ≤ s.currentFrame →
      0 ≤ (ops.foldl applyFrameOp s).currentFrame := by
  refine ⟨rfl, ?_⟩
  intro s ops
  induction ops generalizing s with
  | nil => intro h; exact h
  | cons op t ih =>
    intro h
    show 0 ≤ (t.foldl applyFrameOp (applyFrameOp s op)).currentFrame
    apply ih
    cases op with
    | setTo f => exact le_max_left 0 f
    | next =>
      show 0 ≤ s.currentFrame + 1
      omega
    | prev => exact le_max_left 0 (s.currentFrame - 1)

/-- Witness for C10: a concrete op sequence from the empty state, including a
negative `setFrame` request and a `prevFrame` at zero. -/
theorem C10_witness :
    0 ≤ emptyState.currentFrame ∧
    0 ≤ ([FrameOp.prev, FrameOp.setTo (-3), FrameOp.next].foldl applyFrameOp
      emptyState).currentFrame :=
  ⟨by decide,
    C10_frame_nonnegative.2 emptyState [FrameOp.prev, FrameOp.setTo (-3), FrameOp.next]
      (by decide)⟩

/-- C7: with rectangles `r1`, `r2` and a connector bound to both as children
of one group, deleting `r1` clears the connector's `parentId`, removes the
connector from the group's children (one endpoint no longer resolves inside
the group), and recomputes the group's geometry as the padded union box of
the remaining child `r2 = (50, 50, 10, 10)`. -/
theorem C7_connector_eviction :
    ((lookupObj (deleteObjects c7Start [r1Id]).objects arrowId).map
      (fun c => c.parentId) = some none) ∧
    ((lookupObj (deleteObjects c7Start [r1Id]).objects groupId).map
      (fun g => g.children) = some (some [r2Id])) ∧
    ((lookupObj (deleteObjects c7Start [r1Id]).objects groupId).map
      (fun g => g.geometry) =
      some { x := 40, y := 40, width := some 30, height := some 30, points := none }) ∧
    lookupObj (deleteObjects c7Start [r1Id]).objects r1Id = none := by
  decide

/-- C6: `groupObjects` over at least two existing non-group objects (with a
fresh group id) creates a group whose `children` is exactly the id list,
whose geometry is the padded union bounding box of the members
(`calculateGroupBounds` of the pre-state), and whose `appearFrame` is the
minimum `appearFrame` among the members. -/
theorem C6_group_creation_bounds (s : WhiteboardState) (gid : String) (ids : List String)
    (b : Geometry)
    (h2 : 2 ≤ ids.length)
    (hpresent : ∀ id ∈ ids, ∃ v, lookupObj s.objects id = some v ∧ v.type ≠ COT.group)
    (hfresh : lookupObj s.objects gid = none)
    (hb : calculateGroupBounds s.objects ids = some b) :
    lookupObj (groupObjects s gid ids).objects gid = some
      { id := gid
        type := COT.group
        parentId := none
        children := some ids
        geometry := b
        style := { stroke := some groupStroke, fill := some groupFill, fontSize := none }
        text := none
        appearFrame := jsMinList ((ids.filterMap (fun id => lookupObj s.objects id)).map
          (fun o => o.appearFrame))
        disappearFrame := none
        startConnection := none
        endConnection := none } := by
  have hgid_ne : ∀ a ∈ ids, a ≠ gid := by
    intro a ha
    rcases hpresent a ha with ⟨v, hv, _⟩
    intro heq
    rw [heq, hfresh] at hv
    exact Option.noConfusion hv
  have hlen : ¬ ids.length < 2 := by omega
  have hne0 : ¬ ((ids.filterMap (fun id => lookupObj s.objects id)).length = 0) := by
    rcases ids with _ | ⟨a, t⟩
    · simp at h2
    · rcases hpresent a (List.mem_cons_self a t) with ⟨v, hv, _⟩
      have hmem : v ∈ (a :: t).filterMap (fun id => lookupObj s.objects id) :=
        List.mem_filterMap.mpr ⟨a, List.mem_cons_self a t, hv⟩
      intro h0
      rw [List.length_eq_zero] at h0
      rw [h0] at hmem
      exact List.not_mem_nil v hmem
  have hexg : (ids.filterMap (fun id => lookupObj s.objects id)).filter
      (fun o => o.type = COT.group) = [] := by
    rw [List.filter_eq_nil_iff]
    intro o ho
    rcases List.mem_filterMap.mp ho with ⟨a, ha, hv⟩
    rcases hpresent a ha with ⟨v, hv2, hvt⟩
    rw [hv2] at hv
    rw [Option.some.injEq] at hv
    subst hv
    simpa using hvt
  unfold groupObjects
  rw [if_neg hlen]
  simp only []
  rw [if_neg hne0, hexg, hb]
  simp only []
  rw [foldl_lookup_preserved (reparentStep gid) ids gid
    (fun mm a ha => reparentStep_lookup_of_ne gid mm a (hgid_ne a ha))]
  rw [lookupObj_insertObj_self]

/-- Witness for C6, Scenario B: grouping `r1 = (0,0,10,10)` and
`r2 = (100,100,10,10)` produces geometry `(-10, -10, 130, 130)` and
`appearFrame` 0 (the minimum of the members). -/
theorem C6_witness :
    2 ≤ [r1Id, r2Id].length ∧
    calculateGroupBounds c6Start.objects [r1Id, r2Id] =
      some { x := -10, y := -10, width := some 130, height := some 130, points := none } ∧
    lookupObj (groupObjects c6Start groupId [r1Id, r2Id]).objects groupId = some
      { id := groupId
        type := COT.group
        parentId := none
        children := some [r1Id, r2Id]
        geometry := { x := -10, y := -10, width := some 130, height := some 130, points := none }
        style := { stroke := some groupStroke, fill := some groupFill, fontSize := none }
        text := none
        appearFrame := jsMinList (([r1Id, r2Id].filterMap
          (fun id => lookupObj c6Start.objects id)).map (fun o => o.appearFrame))
        disappearFrame := none
        startConnection := none
        endConnection := none } := by
  refine ⟨by decide, by decide, ?_⟩
  exact C6_group_creation_bounds c6Start groupId [r1Id, r2Id]
    { x := -10, y := -10, width := some 130, height := some 130, points := none }
    (by decide)
    (by
      intro id hid
      simp only [List.mem_cons, List.not_mem_nil, or_false] at hid
      rcases hid with rfl | rfl
      · exact ⟨mkRect r1Id 0 0 10 10, by decide, by decide⟩
      · exact ⟨mkRect r2Id 100 100 10 10, by decide, by decide⟩)
    (by decide)
    (by decide)

/-- Counterexample for C2: `updateObjects` (the bulk update used in the
engine) moves the rectangle child of a group without any bounds
recomputation, so afterwards the group's geometry is not the padded union
bounding box of its children. -/
theorem C2_counterexample :
    ((lookupObj (updateObjects c2Start [r1Id] c2Update false).objects groupId).map
      (fun g => g.geometry) =
      some { x := -10, y := -10, width := some 30, height := some 30, points := none }) ∧
    calculateGroupBounds (updateObjects c2Start [r1Id] c2Update false).objects [r1Id] =
      some { x := 90, y := 90, width := some 30, height := some 30, points := none } ∧
    ¬ ((lookupObj (updateObjects c2Start [r1Id] c2Update false).objects groupId).map
      (fun g => g.geometry) =
      (calculateGroupBounds (updateObjects c2Start [r1Id] c2Update false).objects [r1Id])) := by
  decide

/-- C1: anchor-follow.  For every area-shape object under key `oid` and every
connector under key `cid` bound to it on at least one side, after
`updateObject oid u b` with a geometry-only update (keys `id`, `type`,
`parentId` absent from the partial update) the connector is still present and
keeps both bindings; if its `startConnection` is bound to `oid` then
`points[0]` equals the merged object's anchor position for that anchor id,
and symmetrically if its `endConnection` is bound to `oid` then
`points[length - 1]` equals the corresponding anchor position, as computed by
`getAnchorPos` (n: (x+w/2, y), s: (x+w/2, y+h), e: (x+w, y+h/2),
w: (x, y+h/2)).  The map is assumed well-formed (unique keys, entry ids
matching keys) and the updated object's parent, if any, is not the connector
itself. -/
theorem C1_anchor_follow (s : WhiteboardState) (oid cid : String) (u : ObjectUpdate)
    (b : Bool) (obj C : CanvasObject) (ps : List Point)
    (hWF : WFMap s.objects)
    (hobj : lookupObj s.objects oid = some obj)
    (hid : u.id = none) (htypeu : u.type = none) (hpu : u.parentId = none)
    (harea : obj.type = COT.rectangle ∨ obj.type = COT.diamond ∨
      obj.type = COT.ellipse ∨ obj.type = COT.group)
    (hC : lookupObj s.objects cid = some C)
    (hne : cid ≠ oid)
    (htype : C.type = COT.arrow ∨ C.type = COT.line)
    (hps : C.geometry.points = some ps) (hlen : 2 ≤ ps.length)
    (hbound : (∃ sc, C.startConnection = some sc ∧ sc.objectId = oid) ∨
      (∃ ec, C.endConnection = some ec ∧ ec.objectId = oid))
    (hpar : obj.parentId ≠ some cid) :
    ∃ C2, lookupObj (updateObject s oid u b).objects cid = some C2 ∧
      C2.startConnection = C.startConnection ∧
      C2.endConnection = C.endConnection ∧
      ∃ qs, C2.geometry.points = some qs ∧ qs.length = ps.length ∧
        (∀ sc, C.startConnection = some sc → sc.objectId = oid →
          qs[0]? = some (getAnchorPos (applyUpdate obj u) sc.anchorId)) ∧
        (∀ ec, C.endConnection = some ec → ec.objectId = oid →
          qs[qs.length - 1]? = some (getAnchorPos (applyUpdate obj u) ec.anchorId)) := by
  obtain ⟨hnd, hids⟩ := hWF
  have hoid : obj.id = oid := hids (oid, obj) (mem_of_lookupObj_eq_some _ _ _ hobj)
  have hNBid : (applyUpdate obj u).id = oid := by
    show u.id.getD obj.id = oid
    rw [hid]
    exact hoid
  have hNBtype : (applyUpdate obj u).type = obj.type := by
    show u.type.getD obj.type = obj.type
    rw [htypeu]
    rfl
  have hNBpar : (applyUpdate obj u).parentId = obj.parentId := by
    show u.parentId.getD obj.parentId = obj.parentId
    rw [hpu]
    rfl
  rw [updateObject_objects_eq s oid u b obj hobj]
  simp only []
  set NB := applyUpdate obj u with hNBdef
  set M1 := insertObj s.objects oid NB with hM1def
  set M2 := updateScaled obj NB u M1 with hM2def
  set M3 := assignEntries M2 (getUpdatedConnections NB M2) with hM3def
  set CUR := (lookupObj M3 oid).getD NB with hCURdef
  have hM1C : lookupObj M1 cid = some C := by
    rw [hM1def, lookupObj_insertObj_ne s.objects oid cid NB (fun hh => hne hh.symm)]
    exact hC
  have hM1nd : (objKeys M1).Nodup := by
    rw [hM1def,
      objKeys_insertObj_mem s.objects oid NB (mem_keys_of_lookupObj_eq_some _ _ _ hobj)]
    exact hnd
  have hM1ids : IdsMatch M1 := by
    rw [hM1def]
    exact idsMatch_insertObj s.objects oid NB hids hNBid
  have hM2nd : (objKeys M2).Nodup := by
    rw [hM2def, objKeys_updateScaled]
    exact hM1nd
  have hM2ids : IdsMatch M2 := by
    rw [hM2def]
    exact idsMatch_updateScaled obj NB u M1 hM1ids
  have hskelC : SkelOpt (some C) (lookupObj M2 cid) := by
    have h0 := updateScaled_skelOpt obj NB u M1 cid
    rw [hM1C] at h0
    rw [hM2def]
    exact h0
  obtain ⟨Cm, hCm, hskC⟩ := skelOpt_some_left C (lookupObj M2 cid) hskelC
  have hCmtype : Cm.type = COT.arrow ∨ Cm.type = COT.line := by
    rw [hskC.2.1]
    exact htype
  have hCmstart : Cm.startConnection = C.startConnection := hskC.2.2.2.2.1
  have hCmend : Cm.endConnection = C.endConnection := hskC.2.2.2.2.2.1
  rcases hskC.2.2.2.2.2.2 with ⟨hCn, _⟩ | ⟨ps1, qs1, hCp, hCmp, hlen1⟩
  · rw [hps] at hCn
    exact Option.noConfusion hCn
  rw [hps, Option.some.injEq] at hCp
  have hlenq : 2 ≤ qs1.length := by
    rw [hlen1, ← hCp]
    exact hlen
  have hareaNB : NB.type = COT.rectangle ∨ NB.type = COT.diamond ∨
      NB.type = COT.ellipse ∨ NB.type = COT.group := by
    rw [hNBtype]
    exact harea
  have hboundm : (∃ sc, Cm.startConnection = some sc ∧ sc.objectId = NB.id) ∨
      (∃ ec, Cm.endConnection = some ec ∧ ec.objectId = NB.id) := by
    rcases hbound with ⟨sc, hsc, hscid⟩ | ⟨ec, hec, hecid⟩
    · refine Or.inl ⟨sc, ?_, ?_⟩
      · rw [hCmstart]
        exact hsc
      · rw [hNBid]
        exact hscid
    · refine Or.inr ⟨ec, ?_, ?_⟩
      · rw [hCmend]
        exact hec
      · rw [hNBid]
        exact hecid
  obtain ⟨o2, ho2, hosc, hoec, qs, hoqs, hoqlen, hstart2, hend2⟩ :=
    assign_connections_at_connector2 NB M2 cid Cm qs1 hM2nd hM2ids hareaNB hCm hCmtype
      hCmp hlenq hboundm
  rw [← hM3def] at ho2
  have hM1oid : lookupObj M1 oid = some NB := by
    rw [hM1def]
    exact lookupObj_insertObj_self s.objects oid NB
  have hskelN : SkelOpt (some NB) (lookupObj M2 oid) := by
    have h0 := updateScaled_skelOpt obj NB u M1 oid
    rw [hM1oid] at h0
    rw [hM2def]
    exact h0
  obtain ⟨NB2, hNB2, hskN⟩ := skelOpt_some_left NB (lookupObj M2 oid) hskelN
  have hNB2type : NB2.type = obj.type := by
    rw [hskN.2.1, hNBtype]
  have hNB2notconn : ¬ (NB2.type = COT.arrow ∨ NB2.type = COT.line) := by
    rw [hNB2type]
    rcases harea with h | h | h | h <;> rw [h] <;> intro hc <;>
      rcases hc with hc | hc <;> exact COT.noConfusion hc
  have hM3oid : lookupObj M3 oid = some NB2 := by
    rw [hM3def,
      assign_connections_preserved_at NB M2 oid NB2 hM2nd hM2ids hNB2 hNB2notconn]
    exact hNB2
  have hCUR : CUR = NB2 := by
    rw [hCURdef, hM3oid]
    rfl
  have hCURnot : ¬ (CUR.type = COT.arrow ∨ CUR.type = COT.line) := by
    rw [hCUR]
    exact hNB2notconn
  have hstep : updateMembership u M3 oid CUR = (M3, CUR) :=
    updateMembership_skip u M3 oid CUR hCURnot
  have hM3ids : IdsMatch M3 := by
    rw [hM3def]
    exact idsMatch_assignConnections NB M2 hM2ids
  have hCURpar : CUR.parentId ≠ some cid := by
    rw [hCUR, hskN.2.2.1, hNBpar]
    exact hpar
  refine ⟨o2, ?_, hosc.trans hCmstart, hoec.trans hCmend,
    ⟨qs, hoqs, ?_, ?_, ?_⟩⟩
  · rw [hstep]
    show lookupObj (parentBoundsPass M3 CUR) cid = some o2
    rw [parentBoundsPass_lookup_ne M3 CUR cid hM3ids hCURpar]
    exact ho2
  · rw [hoqlen, hlen1, ← hCp]
  · intro sc hsc hscid
    refine hstart2 sc ?_ ?_
    · rw [hCmstart]
      exact hsc
    · rw [hNBid]
      exact hscid
  · intro ec hec hecid
    refine hend2 ec ?_ ?_
    · rw [hCmend]
      exact hec
    · rw [hNBid]
      exact hecid

/-- C2 (amended): the group-bounds invariant holds for the single-object
`updateObject` path, not for every engine operation (`updateObjects` refutes
the unrestricted claim).  After `updateObject oid u b` on a well-formed map,
when the merged object's parent is a group `gid` (present, children `cs`, not
its own child) and the update touches neither connection field, the group
entry keeps its children and its stored geometry equals the padded union
bounding box `calculateGroupBounds` recomputed over `cs` on the final map,
whenever that recomputation produces a box; moreover the recomputation is
independent of the order of the children list. -/
theorem C2_group_bounds_updateObject (s : WhiteboardState) (oid gid : String)
    (u : ObjectUpdate) (b : Bool) (obj G : CanvasObject) (cs : List String)
    (hWF : WFMap s.objects)
    (hobj : lookupObj s.objects oid = some obj)
    (hid : u.id = none)
    (hscu : jsDefined u.startConnection = false)
    (hecu : jsDefined u.endConnection = false)
    (hpid : (applyUpdate obj u).parentId = some gid)
    (hne : gid ≠ oid)
    (hG : lookupObj s.objects gid = some G)
    (hGtype : G.type = COT.group)
    (hcs : G.children = some cs)
    (hnotin : gid ∉ cs) :
    ∃ G2, lookupObj (updateObject s oid u b).objects gid = some G2 ∧
      G2.children = some cs ∧
      (∀ bx, calculateGroupBounds (updateObject s oid u b).objects cs = some bx →
        G2.geometry = bx) ∧
      (∀ cs2, cs.Perm cs2 →
        calculateGroupBounds (updateObject s oid u b).objects cs2 =
          calculateGroupBounds (updateObject s oid u b).objects cs) := by
  obtain ⟨hnd, hids⟩ := hWF
  have hoid : obj.id = oid := hids (oid, obj) (mem_of_lookupObj_eq_some _ _ _ hobj)
  have hNBid : (applyUpdate obj u).id = oid := by
    show u.id.getD obj.id = oid
    rw [hid]
    exact hoid
  rw [updateObject_objects_eq s oid u b obj hobj]
  simp only []
  set NB := applyUpdate obj u with hNBdef
  set M1 := insertObj s.objects oid NB with hM1def
  set M2 := updateScaled obj NB u M1 with hM2def
  set M3 := assignEntries M2 (getUpdatedConnections NB M2) with hM3def
  set CUR := (lookupObj M3 oid).getD NB with hCURdef
  have hM1nd : (objKeys M1).Nodup := by
    rw [hM1def,
      objKeys_insertObj_mem s.objects oid NB (mem_keys_of_lookupObj_eq_some _ _ _ hobj)]
    exact hnd
  have hM1ids : IdsMatch M1 := by
    rw [hM1def]
    exact idsMatch_insertObj s.objects oid NB hids hNBid
  have hM2nd : (objKeys M2).Nodup := by
    rw [hM2def, objKeys_updateScaled]
    exact hM1nd
  have hM2ids : IdsMatch M2 := by
    rw [hM2def]
    exact idsMatch_updateScaled obj NB u M1 hM1ids
  have hM1G : lookupObj M1 gid = some G := by
    rw [hM1def, lookupObj_insertObj_ne s.objects oid gid NB (fun hh => hne hh.symm)]
    exact hG
  have hskelG : SkelOpt (some G) (lookupObj M2 gid) := by
    have h0 := updateScaled_skelOpt obj NB u M1 gid
    rw [hM1G] at h0
    rw [hM2def]
    exact h0
  obtain ⟨G1, hG1, hskG⟩ := skelOpt_some_left G (lookupObj M2 gid) hskelG
  have hG1type : G1.type = COT.group := by
    rw [hskG.2.1]
    exact hGtype
  have hG1children : G1.children = some cs := by
    rw [hskG.2.2.2.1]
    exact hcs
  have hG1notconn : ¬ (G1.type = COT.arrow ∨ G1.type = COT.line) := by
    rw [hG1type]
    intro hc
    rcases hc with hc | hc <;> exact COT.noConfusion hc
  have hM3gid : lookupObj M3 gid = some G1 := by
    rw [hM3def,
      assign_connections_preserved_at NB M2 gid G1 hM2nd hM2ids hG1 hG1notconn]
    exact hG1
  have hM3ids : IdsMatch M3 := by
    rw [hM3def]
    exact idsMatch_assignConnections NB M2 hM2ids
  have hM1oid : lookupObj M1 oid = some NB := by
    rw [hM1def]
    exact lookupObj_insertObj_self s.objects oid NB
  have hskelN : SkelOpt (some NB) (lookupObj M2 oid) := by
    have h0 := updateScaled_skelOpt obj NB u M1 oid
    rw [hM1oid] at h0
    rw [hM2def]
    exact h0
  obtain ⟨NB2, hNB2, hskN⟩ := skelOpt_some_left NB (lookupObj M2 oid) hskelN
  have hM3oid : lookupObj M3 oid = some NB2 := by
    rw [hM3def]
    exact assign_connections_lookup_same NB M2 oid NB2 hM2nd hM2ids hNB2 hskN.2.1
  have hCUR : CUR = NB2 := by
    rw [hCURdef, hM3oid]
    rfl
  have hCURpar : CUR.parentId = some gid := by
    rw [hCUR, hskN.2.2.1]
    exact hpid
  have hG1id : G1.id = gid := hM3ids (gid, G1) (mem_of_lookupObj_eq_some _ _ _ hM3gid)
  have hstep : updateMembership u M3 oid CUR = (M3, CUR) :=
    updateMembership_skip_conn u M3 oid CUR hscu hecu
  simp only [hstep]
  rcases hb : calculateGroupBounds M3 cs with _ | bnds
  · have hres : parentBoundsPass M3 CUR = M3 := by
      unfold parentBoundsPass
      simp only [hCURpar, hM3gid, hG1children, hb]
    rw [hres]
    refine ⟨G1, hM3gid, hG1children, ?_, ?_⟩
    · intro bx hbx
      rw [hb] at hbx
      exact Option.noConfusion hbx
    · intro cs2 hp2
      exact calculateGroupBounds_perm _ cs cs2 hp2
  · have hres : parentBoundsPass M3 CUR = insertObj M3 G1.id { G1 with geometry := bnds } := by
      unfold parentBoundsPass
      simp only [hCURpar, hM3gid, hG1children, hb]
    rw [hres]
    refine ⟨{ G1 with geometry := bnds }, ?_, hG1children, ?_, ?_⟩
    · rw [hG1id]
      exact lookupObj_insertObj_self M3 gid _
    · intro bx hbx
      have hcongr : calculateGroupBounds (insertObj M3 G1.id { G1 with geometry := bnds }) cs =
          calculateGroupBounds M3 cs := by
        apply calculateGroupBounds_congr
        intro c hc
        apply lookupObj_insertObj_ne
        rw [hG1id]
        intro hgc
        refine hnotin ?_
        rw [hgc]
        exact hc
      rw [hcongr, hb, Option.some.injEq] at hbx
      exact hbx
    · intro cs2 hp2
      exact calculateGroupBounds_perm _ cs cs2 hp2

/-- Concrete instance for the amended C2: in `c2Start` (group `g1` with single
child rectangle `r1`), the single-object update moving `r1` to `(100,100)`
leaves the group's stored geometry equal to the recomputed padded bounds
`(90, 90, 30, 30)` of its children on the final map. -/
theorem C2_witness :
    (∃ G2, lookupObj (updateObject c2Start r1Id c2Update false).objects groupId = some G2 ∧
      G2.children = some [r1Id] ∧
      (∀ bx, calculateGroupBounds (updateObject c2Start r1Id c2Update false).objects [r1Id] =
          some bx → G2.geometry = bx) ∧
      (∀ cs2, ([r1Id] : List String).Perm cs2 →
        calculateGroupBounds (updateObject c2Start r1Id c2Update false).objects cs2 =
          calculateGroupBounds (updateObject c2Start r1Id c2Update false).objects [r1Id])) ∧
    calculateGroupBounds (updateObject c2Start r1Id c2Update false).objects [r1Id] =
      some { x := 90, y := 90, width := some 30, height := some 30, points := none } := by
  refine ⟨C2_group_bounds_updateObject c2Start r1Id groupId c2Update false
    ({ mkRect r1Id 0 0 10 10 with parentId := some groupId })
    (mkGroup groupId [r1Id] (-10) (-10) 30 30) [r1Id]
    (by decide) (by decide) rfl rfl rfl (by decide) (by decide) (by decide) rfl rfl
    (by decide), by decide⟩

/-- C4: cascade-delete completeness.  For a group `gid` present in a
parent-coherent map, `deleteObject` agrees with `deleteObjects [gid]`, the
group and every transitive descendant (through `children` lists) are removed
from the object map, and afterwards no remaining object's `parentId`
references an absent id. -/
theorem C4_cascade_delete (s : WhiteboardState) (gid : String) (G : CanvasObject)
    (hG : lookupObj s.objects gid = some G) (hGtype : G.type = COT.group)
    (hco : ParentCoherent s.objects) :
    (deleteObject s gid = deleteObjects s [gid]) ∧
    lookupObj (deleteObjects s [gid]).objects gid = none ∧
    (∀ d, DescendantOf s.objects gid d →
      lookupObj (deleteObjects s [gid]).objects d = none) ∧
    (∀ x X p, lookupObj (deleteObjects s [gid]).objects x = some X →
      X.parentId = some p →
      (lookupObj (deleteObjects s [gid]).objects p).isSome) := by
  have hredu : (deleteObjects s [gid]).objects =
      (objKeys ((getRecursiveChildrenIds s.objects [gid]).foldl eraseObj s.objects)).foldl
        cleanupGroupStep
        ((getRecursiveChildrenIds s.objects [gid]).foldl eraseObj s.objects) := rfl
  refine ⟨rfl, ?_, ?_, ?_⟩
  · rw [hredu]
    apply cleanup_fold_none
    rw [foldl_erase_lookup,
      if_pos (mem_getRecursiveChildrenIds_of_mem s.objects [gid] gid
        (List.mem_singleton.mpr rfl))]
  · intro d hd
    rw [hredu]
    apply cleanup_fold_none
    rw [foldl_erase_lookup,
      if_pos (descendant_mem_getRecursiveChildrenIds s.objects [gid] gid
        (List.mem_singleton.mpr rfl) d hd)]
  · intro x X p hx hp
    rw [hredu] at hx ⊢
    obtain ⟨P, hP, _⟩ := cleanup_fold_coherent _ _
      (erase_closure_coherent s.objects [gid] hco) x X p hx hp
    rw [hP]
    rfl

/-- Concrete cascade deletion: deleting group `g1` of `c4Start` removes `g1`
and its child `r1` while the bystander `r2` survives with no dangling
parent. -/
theorem C4_witness :
    ((deleteObject c4Start groupId = deleteObjects c4Start [groupId]) ∧
      lookupObj (deleteObjects c4Start [groupId]).objects groupId = none ∧
      (∀ d, DescendantOf c4Start.objects groupId d →
        lookupObj (deleteObjects c4Start [groupId]).objects d = none) ∧
      (∀ x X p, lookupObj (deleteObjects c4Start [groupId]).objects x = some X →
        X.parentId = some p →
        (lookupObj (deleteObjects c4Start [groupId]).objects p).isSome)) ∧
    lookupObj (deleteObjects c4Start [groupId]).objects r1Id = none ∧
    (lookupObj (deleteObjects c4Start [groupId]).objects r2Id).isSome := by
  refine ⟨C4_cascade_delete c4Start groupId (mkGroup groupId [r1Id] (-10) (-10) 30 30)
    (by decide) rfl (parentCoherent_of_ok _ (by decide)), by decide, by decide⟩

/-- Scenario A for C1 and its symmetric end-side counterpart: with
`r1 = (0,0,100,100)` updated by `x := 50`, the start-bound arrow of `c1Start`
gets `points[0] = (150, 50)` (east anchor) and the end-bound arrow of
`c1bStart` gets `points[length - 1] = (50, 50)` (west anchor). -/
theorem C1_witness :
    (∃ C2, lookupObj (updateObject c1Start r1Id c1Update false).objects arrowId = some C2 ∧
      C2.startConnection = some { objectId := r1Id, anchorId := AnchorId.e } ∧
      ∃ qs, C2.geometry.points = some qs ∧
        qs[0]? = some { x := 150, y := 50 }) ∧
    (∃ C2, lookupObj (updateObject c1bStart r1Id c1Update false).objects arrowId = some C2 ∧
      C2.endConnection = some { objectId := r1Id, anchorId := AnchorId.w } ∧
      ∃ qs, C2.geometry.points = some qs ∧
        qs[qs.length - 1]? = some { x := 50, y := 50 }) := by
  constructor
  · obtain ⟨C2, hC2, hsce, hece, qs, hqs, hql, hstart, hend⟩ :=
      C1_anchor_follow c1Start r1Id arrowId c1Update false
        (mkRect r1Id 0 0 100 100)
        (mkArrow arrowId [{ x := 100, y := 50 }, { x := 300, y := 300 }]
          (some { objectId := r1Id, anchorId := AnchorId.e }) none)
        [{ x := 100, y := 50 }, { x := 300, y := 300 }]
        (by decide) (by decide) rfl rfl rfl (Or.inl rfl) (by decide) (by decide)
        (Or.inl rfl) rfl (by decide)
        (Or.inl ⟨{ objectId := r1Id, anchorId := AnchorId.e }, rfl, rfl⟩)
        (by decide)
    refine ⟨C2, hC2, hsce, qs, hqs, ?_⟩
    have h0 := hstart { objectId := r1Id, anchorId := AnchorId.e } rfl rfl
    rw [h0]
    decide
  · obtain ⟨C2, hC2, hsce, hece, qs, hqs, hql, hstart, hend⟩ :=
      C1_anchor_follow c1bStart r1Id arrowId c1Update false
        (mkRect r1Id 0 0 100 100)
        (mkArrow arrowId [{ x := 300, y := 300 }, { x := 0, y := 50 }]
          none (some { objectId := r1Id, anchorId := AnchorId.w }))
        [{ x := 300, y := 300 }, { x := 0, y := 50 }]
        (by decide) (by decide) rfl rfl rfl (Or.inl rfl) (by decide) (by decide)
        (Or.inl rfl) rfl (by decide)
        (Or.inr ⟨{ objectId := r1Id, anchorId := AnchorId.w }, rfl, rfl⟩)
        (by decide)
    refine ⟨C2, hC2, hece, qs, hqs, ?_⟩
    have h0 := hend { objectId := r1Id, anchorId := AnchorId.w } rfl rfl
    rw [h0]
    decide

end PD
